/-
Verification of the realtime noise backend (src/native/realtime_backend).

Shallow embedding conventions:
* `f32`/`f64` samples and gains are modelled as real numbers (`ℝ`); the
  floating-point claims are settled exactly over ℝ ("up to floating-point
  tolerance" becomes equality).
* Rust indexing that can panic is modelled with `Option`-returning access
  (`List.get?`); a `none` result is a panic.
* `usize` is `ℕ` (saturating subtraction matches `Nat` subtraction where the
  source uses `saturating_sub`; ordinary `usize` subtraction in the source is
  only ever performed when the subtrahend is known smaller).
* The async worker channels are modelled by an explicit environment value per
  call saying whether `try_send` succeeded and what `try_recv` returned.
-/
import Mathlib

set_option maxHeartbeats 1000000
set_option maxRecDepth 8000

noncomputable section

/-! ## Constants (streaming_noise.rs) -/

def BLOCK_SIZE : ℕ := 2048

def HOP_SIZE : ℕ := BLOCK_SIZE / 2

def ACC_SIZE : ℕ := BLOCK_SIZE * 2

def CROSSFADE_SAMPLES : ℕ := 2048

def RENORM_WINDOW : ℕ := 16384

def RENORM_HYSTERESIS_RATIO : ℝ := 0.10

def GAIN_SMOOTHING_COEFF : ℝ := 0.99995

def UNDERRUN_FADE_SAMPLES : ℕ := 512

/-! ## Notch filter logic (streaming_noise.rs lines 93–205) -/

structure Coeffs where
  b0 : ℝ
  b1 : ℝ
  b2 : ℝ
  a1 : ℝ
  a2 : ℝ

structure BiquadState64 where
  z1 : ℝ
  z2 : ℝ

def BiquadState64.init : BiquadState64 := ⟨0, 0⟩

/-- Embedding of `notch_coeffs_f64`: SciPy-style normalized biquad notch
coefficients as a pure function of (frequency, Q, sample rate). -/
def notch_coeffs_f64 (freq q sample_rate : ℝ) : Coeffs :=
  let w0 := 2 * Real.pi * freq / sample_rate
  let cos_w0 := Real.cos w0
  let sin_w0 := Real.sin w0
  let alpha := sin_w0 / (2 * q)
  let a0 := 1 + alpha
  { b0 := 1 / a0
    b1 := -2 * cos_w0 / a0
    b2 := 1 / a0
    a1 := -2 * cos_w0 / a0
    a2 := (1 - alpha) / a0 }

/-- One Direct-Form-II-Transposed stage applied to one sample
(the inner loop body of `biquad_time_varying_block`). -/
def df2t_stage (co : Coeffs) (x : ℝ) (st : BiquadState64) : ℝ × BiquadState64 :=
  let out := x * co.b0 + st.z1
  (out, ⟨x * co.b1 - out * co.a1 + st.z2, x * co.b2 - out * co.a2⟩)

/-- Run a sample through the first `k` cascade stages of the persistent
state list, updating each visited stage slot in place. -/
def cascade_run : ℕ → Coeffs → ℝ → List BiquadState64 → ℝ × List BiquadState64
  | 0, _, x, st => (x, st)
  | _ + 1, _, x, [] => (x, [])
  | k + 1, co, x, s :: rest =>
    let p := df2t_stage co x s
    let q := cascade_run k co p.1 rest
    (q.1, p.2 :: q.2)

/-- Decidable form of the per-sample skip condition of
`biquad_time_varying_block`: the requested frequency is non-positive or at or
above `0.49 × sample_rate`.  (A non-finite `f32` frequency, also skipped by the
source, has no counterpart in the ℝ embedding.) -/
def skip_freq (sample_rate freq : ℝ) : Prop :=
  freq ≤ 0 ∨ sample_rate * 0.49 ≤ freq

instance (sample_rate freq : ℝ) : Decidable (skip_freq sample_rate freq) := by
  unfold skip_freq; infer_instance

/-- The per-sample-index body of `biquad_time_varying_block`: clamp the
cascade count into `[1, state.length]`, skip entirely (sample and state both
untouched) when the frequency is out of range, otherwise run the sample
through exactly the clamped number of stages. -/
def tv_sample (sample_rate x freq q : ℝ) (casc : ℕ) (st : List BiquadState64) :
    ℝ × List BiquadState64 :=
  let c := if casc < 1 then 1 else min casc st.length
  if skip_freq sample_rate freq then (x, st)
  else cascade_run c (notch_coeffs_f64 freq (max q (1e-6)) sample_rate) x st

/-- Embedding of `biquad_time_varying_block` (the whole loop): each entry of
the input list packs one index of (block, freq_series, q_series, casc_counts);
the block is processed sample-by-sample, threading the persistent per-stage
state. -/
def biquad_time_varying_block (sample_rate : ℝ) :
    List (ℝ × ℝ × ℝ × ℕ) → List BiquadState64 → List ℝ × List BiquadState64
  | [], st => ([], st)
  | (x, freq, q, casc) :: rest, st =>
    let p := tv_sample sample_rate x freq q casc st
    let r := biquad_time_varying_block sample_rate rest p.2
    (p.1 :: r.1, r.2)

/-! ## RMS locking stage of `AsyncNoiseWorker::regenerate_into`
(streaming_noise.rs lines 314–342).  The freshly synthesized IFFT output is
abstracted as the input list; the locking stage is embedded verbatim. -/

def sum_sq (l : List ℝ) : ℝ := l.foldl (fun a x => a + x * x) 0

def buffer_rms (l : List ℝ) : ℝ := Real.sqrt (sum_sq l / l.length)

/-- Rust `f32::clamp(-1.0, 1.0)`. -/
def clamp_unit (x : ℝ) : ℝ := min 1 (max (-1) x)

def max_abs (l : List ℝ) : ℝ := l.foldl (fun a x => max a |x|) 0

/-- The RMS-locking stage of `AsyncNoiseWorker::regenerate_into`: if the raw
buffer is loud enough, either scale to the locked target (clamping each
sample), or — on the first buffer — peak-normalize and lock the resulting RMS
as the target.  Returns the processed buffer and the new locked target. -/
def regenerate_rms_lock (target_rms : Option ℝ) (buf : List ℝ) :
    List ℝ × Option ℝ :=
  let current_rms := buffer_rms buf
  if (1e-9 : ℝ) < current_rms then
    match target_rms with
    | some t =>
      let gain := t / current_rms
      (buf.map fun x => clamp_unit (x * gain), some t)
    | none =>
      let max_val := max_abs buf
      if (1e-9 : ℝ) < max_val then
        let normed := buf.map fun x => x / max_val
        (normed, some (buffer_rms normed))
      else (buf, none)
  else (buf, target_rms)

/-! ## `mix_from_ringbuffer` (audio_io.rs lines 35–58).
The SPSC ring buffer consumer is modelled by the list of samples it currently
holds; `pop_slice` takes the longest prefix fitting the output. -/

/-- Result of one `mix_from_ringbuffer` call: the filled output buffer, the
updated `last_sample`, and the samples left in the ring. -/
def mix_from_ringbuffer (ring : List ℝ) (out_len : ℕ) (last_sample : ℝ)
    (low_watermark : ℕ) : List ℝ × ℝ × List ℝ :=
  let available := ring.length
  let copied := min out_len available
  let popped := ring.take copied
  let data :=
    if 0 < copied ∧ available < low_watermark then
      popped.mapIdx fun idx x =>
        let alpha := ((idx : ℝ) + 1) / (copied : ℝ)
        last_sample * (1 - alpha) + x * alpha
    else popped
  let last := if 0 < copied then data.getD (copied - 1) 0 else last_sample
  (data ++ List.replicate (out_len - copied) last, last, ring.drop copied)

/-! ## NoiseParams and preset resolution
(streaming_noise.rs lines 73–79, 385–423; the `NoiseParams` struct lives in
`noise_params.rs`, whose fields are fixed by their uses here). -/

structure SweepInput where
  start_min : ℝ
  end_min : ℝ
  start_max : ℝ
  end_max : ℝ
  start_q : ℝ
  end_q : ℝ
  start_casc : ℕ
  end_casc : ℕ

structure NoiseParams where
  /-- `noise_parameters.get("name")` when that JSON entry is a string. -/
  noise_name : Option String
  exponent : Option ℝ
  high_exponent : Option ℝ
  distribution_curve : Option ℝ
  lowcut : Option ℝ
  highcut : Option ℝ
  amplitude : Option ℝ
  duration_seconds : ℝ
  sweeps : List SweepInput
  transition : Bool
  lfo_freq : ℝ
  start_lfo_freq : ℝ
  end_lfo_freq : ℝ
  start_lfo_phase_offset_deg : ℝ
  end_lfo_phase_offset_deg : ℝ
  start_intra_phase_offset_deg : ℝ
  end_intra_phase_offset_deg : ℝ
  lfo_waveform : String
  initial_offset : ℝ

/-- `resolved_noise_name`: the `"name"` entry of `noise_parameters` when it is
a string, else `"pink"`. -/
def resolved_noise_name (p : NoiseParams) : String :=
  p.noise_name.getD "pink"

/-- `FftNoiseGenerator::preset_for_type`:
(exponent, high_exponent, distribution_curve, lowcut, highcut, amplitude). -/
def preset_for_type (nt : String) : Option (ℝ × ℝ × ℝ × Option ℝ × Option ℝ × ℝ) :=
  if nt = "pink" then some (1, 1, 1, none, none, 1)
  else if nt = "brown" then some (2, 2, 1, none, none, 1)
  else if nt = "red" then some (2, 1.5, 1, none, none, 1)
  else if nt = "green" then some (0, 0, 1, some 100, some 8000, 1)
  else if nt = "blue" then some (-1, -1, 1, none, none, 1)
  else if nt = "purple" then some (-2, -2, 1, none, none, 1)
  else if nt = "deep brown" then some (2.5, 2, 1, none, none, 1)
  else if nt = "white" then some (0, 0, 1, none, none, 1)
  else none

/-- Rust `str::to_lowercase`, character-wise. -/
def to_lowercase (s : String) : String := String.mk (s.data.map Char.toLower)

/-- The (exponent, high_exponent, distribution_curve) resolution performed at
the top of `FftNoiseGenerator::new` (lines 399–416). -/
def resolved_exponents (p : NoiseParams) : ℝ × ℝ × ℝ :=
  let noise_label := resolved_noise_name p
  let nt := to_lowercase noise_label
  let preset := preset_for_type nt
  let exponent := (p.exponent.orElse fun _ => preset.map fun pr => pr.1).getD 0
  let high_exponent :=
    (p.high_exponent.orElse fun _ => preset.map fun pr => pr.2.1).getD exponent
  let distribution_curve :=
    max ((p.distribution_curve.orElse fun _ => preset.map fun pr => pr.2.2.1).getD 1) (1e-6)
  (exponent, high_exponent, distribution_curve)

/-! ## Sweep configuration and realtime updates
(streaming_noise.rs lines 866–914, 950–1111). -/

structure SweepParams where
  start_min : ℝ
  end_min : ℝ
  start_max : ℝ
  end_max : ℝ
  start_q : ℝ
  end_q : ℝ
  start_casc : ℕ
  end_casc : ℕ

structure SweepRuntime where
  max_casc : ℕ
  l_main : List BiquadState64
  r_main : List BiquadState64
  l_extra : List BiquadState64
  r_extra : List BiquadState64

/-- `SweepRuntime::new`. -/
def SweepRuntime.new (max_casc : ℕ) : SweepRuntime :=
  let m := max max_casc 1
  { max_casc := m
    l_main := List.replicate m BiquadState64.init
    r_main := List.replicate m BiquadState64.init
    l_extra := List.replicate m BiquadState64.init
    r_extra := List.replicate m BiquadState64.init }

/-- `StreamingNoise::build_sweep_params` for one sweep entry. -/
def build_one_sweep (sw : SweepInput) : SweepParams :=
  let start_min := if 0 < sw.start_min then sw.start_min else 1000
  let end_min := if 0 < sw.end_min then sw.end_min else start_min
  let start_max := if 0 < sw.start_max then max sw.start_max (start_min + 1) else start_min + 9000
  let end_max := if 0 < sw.end_max then max sw.end_max (end_min + 1) else start_max
  let start_q := if 0 < sw.start_q then sw.start_q else 25
  let end_q := if 0 < sw.end_q then sw.end_q else start_q
  let start_casc := if 0 < sw.start_casc then sw.start_casc else 10
  let end_casc := if 0 < sw.end_casc then sw.end_casc else start_casc
  { start_min := start_min, end_min := end_min, start_max := start_max, end_max := end_max
    start_q := start_q, end_q := end_q, start_casc := start_casc, end_casc := end_casc }

def build_sweep_params (p : NoiseParams) : List SweepParams :=
  p.sweeps.map build_one_sweep

/-- The sweep/LFO configuration subset of the `StreamingNoise` struct — the
fields read and replaced by `update_realtime_params`. -/
structure StreamingNoiseCfg where
  sweep_params : List SweepParams
  sweep_runtime : List SweepRuntime
  transition : Bool
  lfo_waveform : String
  start_lfo_freq : ℝ
  end_lfo_freq : ℝ
  lfo_freq : ℝ
  start_lfo_phase_offset : ℝ
  end_lfo_phase_offset : ℝ
  start_intra_offset : ℝ
  end_intra_offset : ℝ

def to_radians (deg : ℝ) : ℝ := deg * (Real.pi / 180)

def lfo_freq_of (p : NoiseParams) : ℝ :=
  if p.transition then p.start_lfo_freq
  else if p.lfo_freq ≠ 0 then p.lfo_freq
  else 1 / 12

/-- The sweep/LFO field initialization done by `StreamingNoise::new`
(lines 1010–1045). -/
def streaming_noise_cfg (p : NoiseParams) : StreamingNoiseCfg :=
  let lfo_freq := lfo_freq_of p
  let sps := build_sweep_params p
  { sweep_params := sps
    sweep_runtime := sps.map fun sp => SweepRuntime.new (max (max sp.start_casc sp.end_casc) 1)
    transition := p.transition
    lfo_waveform := p.lfo_waveform
    start_lfo_freq := if 0 < p.start_lfo_freq then p.start_lfo_freq else lfo_freq
    end_lfo_freq := if 0 < p.end_lfo_freq then p.end_lfo_freq else lfo_freq
    lfo_freq := lfo_freq
    start_lfo_phase_offset := to_radians p.start_lfo_phase_offset_deg
    end_lfo_phase_offset := to_radians p.end_lfo_phase_offset_deg
    start_intra_offset := to_radians p.start_intra_phase_offset_deg
    end_intra_offset := to_radians p.end_intra_phase_offset_deg }

/-- The capacity-check loop of `update_realtime_params` (lines 1084–1090):
walks the zipped (runtime, new params) pairs, updating each runtime's
`max_casc` in place, and aborts returning `false` on the first sweep whose new
requirement exceeds the runtime's current `max_casc` — runtimes already
visited keep their new values, exactly as the Rust in-place loop does. -/
def update_casc_loop : List SweepRuntime → List SweepParams → Bool × List SweepRuntime
  | [], _ => (true, [])
  | rts, [] => (true, rts)
  | rt :: rts, sp :: sps =>
    let m := max (max sp.start_casc sp.end_casc) 1
    if rt.max_casc < m then (false, rt :: rts)
    else
      let rest := update_casc_loop rts sps
      (rest.1, { rt with max_casc := m } :: rest.2)

/-- `StreamingNoise::update_realtime_params`: returns the Rust boolean result
together with the (possibly partially mutated) configuration. -/
def update_realtime_params (s : StreamingNoiseCfg) (p : NoiseParams) :
    Bool × StreamingNoiseCfg :=
  if p.sweeps.length ≠ s.sweep_params.length then (false, s)
  else
    let lfo_freq := lfo_freq_of p
    let sps := build_sweep_params p
    let lp := update_casc_loop s.sweep_runtime sps
    if lp.1 then
      (true,
        { s with
          sweep_runtime := lp.2
          sweep_params := sps
          transition := p.transition
          lfo_waveform := p.lfo_waveform
          start_lfo_freq := if 0 < p.start_lfo_freq then p.start_lfo_freq else lfo_freq
          end_lfo_freq := if 0 < p.end_lfo_freq then p.end_lfo_freq else lfo_freq
          lfo_freq := lfo_freq
          start_lfo_phase_offset := to_radians p.start_lfo_phase_offset_deg
          end_lfo_phase_offset := to_radians p.end_lfo_phase_offset_deg
          start_intra_offset := to_radians p.start_intra_phase_offset_deg
          end_intra_offset := to_radians p.end_intra_phase_offset_deg })
    else (false, { s with sweep_runtime := lp.2 })

/-! ## FftNoiseGenerator / DoubleBufferedNoiseSource
(streaming_noise.rs lines 218–763).  `next` is decomposed into the phases of
the source method body, executed in source order; the bounded worker channels
are modelled by a per-call `WorkerEnv` giving the outcome of `try_send` and
`try_recv`. -/

/-- The `biquad` crate's `DirectForm2Transposed<f32>`: coefficients plus the
two persistent accumulators. -/
structure Df2tF32 where
  b0 : ℝ
  b1 : ℝ
  b2 : ℝ
  a1 : ℝ
  a2 : ℝ
  z1 : ℝ
  z2 : ℝ

def df2t_run (f : Df2tF32) (x : ℝ) : ℝ × Df2tF32 :=
  let out := f.b0 * x + f.z1
  (out, { f with z1 := f.b1 * x - f.a1 * out + f.z2, z2 := f.b2 * x - f.a2 * out })

def run_filter_chain : List Df2tF32 → ℝ → ℝ × List Df2tF32
  | [], x => (x, [])
  | f :: rest, x =>
    let p := df2t_run f x
    let q := run_filter_chain rest p.1
    (q.1, p.2 :: q.2)

def run_filter_chain_opt : Option (List Df2tF32) → ℝ → ℝ × Option (List Df2tF32)
  | none, x => (x, none)
  | some fs, x =>
    let p := run_filter_chain fs x
    (p.1, some p.2)

/-- The renorm fields of `FftNoiseGenerator` (grouped; each field maps 1:1 to
a flat field of the Rust struct). -/
structure RenormState where
  renorm_gain : ℝ
  smoothed_gain : ℝ
  renorm_initialized : Bool
  pre_rms_accum : ℝ
  post_rms_accum : ℝ
  rms_samples : ℕ
  is_unmodulated : Bool

/-- `FftNoiseGenerator::apply_post_filter_renorm` (lines 704–762). -/
def apply_post_filter_renorm (r : RenormState) (pre post : ℝ) : ℝ × RenormState :=
  let preA := r.pre_rms_accum + pre * pre
  let postA := r.post_rms_accum + post * post
  let n := r.rms_samples + 1
  let r1 :=
    if RENORM_WINDOW ≤ n then
      let pre_rms := Real.sqrt (preA / (n : ℝ))
      let post_rms := Real.sqrt (postA / (n : ℝ))
      let r2 :=
        if (1e-6 : ℝ) < pre_rms ∧ (1e-6 : ℝ) < post_rms then
          let target_gain := min 16 (max 0.25 (pre_rms / post_rms))
          if r.is_unmodulated then
            if ¬r.renorm_initialized then
              { r with renorm_gain := target_gain, smoothed_gain := target_gain,
                       renorm_initialized := true }
            else r
          else
            let ratio_diff := |target_gain - r.renorm_gain| / r.renorm_gain
            if RENORM_HYSTERESIS_RATIO < ratio_diff then
              if ¬r.renorm_initialized then
                { r with renorm_gain := target_gain, smoothed_gain := target_gain,
                         renorm_initialized := true }
              else { r with renorm_gain := 0.8 * r.renorm_gain + 0.2 * target_gain }
            else r
        else
          if ¬r.renorm_initialized then
            { r with renorm_gain := 1, smoothed_gain := 1, renorm_initialized := true }
          else r
      { r2 with pre_rms_accum := 0, post_rms_accum := 0, rms_samples := 0 }
    else { r with pre_rms_accum := preA, post_rms_accum := postA, rms_samples := n }
  let sg := GAIN_SMOOTHING_COEFF * r1.smoothed_gain +
    (1 - GAIN_SMOOTHING_COEFF) * r1.renorm_gain
  (post * sg, { r1 with smoothed_gain := sg })

structure FftNoiseGenerator where
  buffer : List ℝ
  next_buffer_storage : List ℝ
  next_buffer_ready : Bool
  cursor : ℕ
  size : ℕ
  worker_requested : Bool
  lp_filters : Option (List Df2tF32)
  hp_filters : Option (List Df2tF32)
  base_amplitude : ℝ
  renorm : RenormState
  underrun_recovering : Bool
  underrun_fade_pos : ℕ

/-- Outcome of the single `worker_rx.try_recv()` a `next` call performs. -/
inductive RecvResult where
  | empty
  | disconnected
  | ok (buf : List ℝ)

/-- Channel outcomes visible to one `next` call. -/
structure WorkerEnv where
  send_ok : Bool
  recv : RecvResult

/-- `FftNoiseGenerator::crossfade_len`. -/
def FftNoiseGenerator.crossfade_len (s : FftNoiseGenerator) : ℕ :=
  min s.buffer.length CROSSFADE_SAMPLES

/-- The 50%-point regeneration trigger at the top of `next` (lines 580–599):
`mem::take` empties `next_buffer_storage` whether or not `try_send` succeeds
(on failure the recycled allocation is dropped). -/
def trigger_phase (env : WorkerEnv) (s : FftNoiseGenerator) : FftNoiseGenerator :=
  if s.next_buffer_ready = false ∧ s.worker_requested = false ∧ s.size / 2 ≤ s.cursor then
    if env.send_ok then { s with next_buffer_storage := [], worker_requested := true }
    else { s with next_buffer_storage := [] }
  else s

/-- The non-blocking worker poll (lines 602–616). -/
def poll_phase (env : WorkerEnv) (s : FftNoiseGenerator) : FftNoiseGenerator :=
  if s.worker_requested then
    match env.recv with
    | .ok buf =>
      { s with next_buffer_storage := buf, next_buffer_ready := true,
               worker_requested := false }
    | .empty => s
    | .disconnected => { s with worker_requested := false }
  else s

/-- Buffer switching (lines 618–637): swap in the ready replacement (skipping
the samples already consumed through the crossfade) or declare an underrun and
loop the active buffer from its start. -/
def switch_phase (s : FftNoiseGenerator) : FftNoiseGenerator :=
  if s.buffer.length ≤ s.cursor then
    if s.next_buffer_ready then
      let skip := min s.crossfade_len s.next_buffer_storage.length
      { s with buffer := s.next_buffer_storage, next_buffer_storage := s.buffer,
               cursor := skip, next_buffer_ready := false,
               underrun_recovering := false, underrun_fade_pos := 0 }
    else
      { s with cursor := 0, underrun_recovering := true, underrun_fade_pos := 0 }
  else s

/-- Crossfade fade-out weight `0.5 * (1.0 + (PI * t).cos())` (line 648). -/
def fade_out_weight (t : ℝ) : ℝ := 0.5 * (1 + Real.cos (Real.pi * t))

/-- Crossfade fade-in weight `1.0 - fade_out` (line 649). -/
def fade_in_weight (t : ℝ) : ℝ := 1 - fade_out_weight t

/-- Sample selection (lines 640–657): blend with the incoming buffer inside
the crossfade region, else read the active buffer at the cursor.  `cl` is the
crossfade length computed at the top of `next`, before any buffer swap. -/
def read_sample (cl : ℕ) (s : FftNoiseGenerator) : Option ℝ :=
  if s.next_buffer_ready then
    let crossfade_start := s.buffer.length - cl
    if crossfade_start ≤ s.cursor ∧ 0 < cl ∧ s.next_buffer_storage ≠ [] then
      match s.buffer.get? s.cursor with
      | none => none
      | some b =>
        let idx := s.cursor - crossfade_start
        let t : ℝ := (idx : ℝ) / (cl : ℝ)
        some (b * fade_out_weight t + s.next_buffer_storage.getD idx 0 * fade_in_weight t)
    else s.buffer.get? s.cursor
  else s.buffer.get? s.cursor

/-- Underrun recovery fade-in weight `0.5 * (1.0 - (PI * t).cos())` with
`t = pos / UNDERRUN_FADE_SAMPLES` (lines 664–665). -/
def underrun_fade_in (pos : ℕ) : ℝ :=
  0.5 * (1 - Real.cos (Real.pi * ((pos : ℝ) / (UNDERRUN_FADE_SAMPLES : ℝ))))

/-- Underrun declick (lines 659–681): while recovering, blend the tail of the
just-finished buffer into the restarted head over `UNDERRUN_FADE_SAMPLES`
calls. -/
def underrun_phase (s : FftNoiseGenerator) (x : ℝ) : Option (ℝ × FftNoiseGenerator) :=
  if s.underrun_recovering then
    if s.underrun_fade_pos < UNDERRUN_FADE_SAMPLES then
      let pos := s.underrun_fade_pos
      let fi := underrun_fade_in pos
      let fo := 1 - fi
      let tail_base := s.buffer.length - UNDERRUN_FADE_SAMPLES
      let tail_idx := min (tail_base + pos) (s.buffer.length - 1)
      match s.buffer.get? tail_idx with
      | none => none
      | some tail => some (tail * fo + x * fi, { s with underrun_fade_pos := pos + 1 })
    else some (x, { s with underrun_recovering := false, underrun_fade_pos := 0 })
  else some (x, s)

/-- Post-processing (lines 685–701): LP/HP filter chains, renorm, and the base
amplitude, as a pure function of the fields it reads. -/
def post_chain (lp hp : Option (List Df2tF32)) (r : RenormState) (amp x : ℝ) :
    ℝ × Option (List Df2tF32) × Option (List Df2tF32) × RenormState :=
  let pre := x
  let p1 := run_filter_chain_opt lp x
  let p2 := run_filter_chain_opt hp p1.1
  let p3 := apply_post_filter_renorm r pre p2.1
  (p3.1 * amp, p1.2, p2.2, p3.2)

/-- `FftNoiseGenerator::next` (lines 574–702).  `none` models an
out-of-bounds panic. -/
def FftNoiseGenerator.next (env : WorkerEnv) (s : FftNoiseGenerator) :
    Option (ℝ × FftNoiseGenerator) :=
  let cl := s.crossfade_len
  let s1 := poll_phase env (trigger_phase env s)
  let s2 := switch_phase s1
  match read_sample cl s2 with
  | none => none
  | some x =>
    match underrun_phase s2 x with
    | none => none
    | some (y, s3) =>
      let s4 := { s3 with cursor := s3.cursor + 1 }
      let pc := post_chain s4.lp_filters s4.hp_filters s4.renorm s4.base_amplitude y
      some (pc.1, { s4 with lp_filters := pc.2.1, hp_filters := pc.2.2.1,
                            renorm := pc.2.2.2 })

/-- Iterated `next` under a stream of channel environments; `none` as soon as
any call panics. -/
def iter_next (envs : ℕ → WorkerEnv) : ℕ → FftNoiseGenerator → Option FftNoiseGenerator
  | 0, s => some s
  | n + 1, s =>
    match FftNoiseGenerator.next (envs 0) s with
    | none => none
    | some p => iter_next (fun k => envs (k + 1)) n p.2

/-- An environment in which the replacement buffer never arrives
(`try_recv` never yields a buffer). -/
def no_response (env : WorkerEnv) : Prop :=
  ∀ buf, env.recv ≠ RecvResult.ok buf

/-- The state invariant maintained by `next` while the worker stays silent:
a nonempty active buffer, the cursor at most one past the last read position,
and no replacement marked ready. -/
def UnderrunInv (s : FftNoiseGenerator) : Prop :=
  1 ≤ s.buffer.length ∧ s.cursor ≤ s.buffer.length ∧ s.next_buffer_ready = false

/-! ## OLA streaming state and `StreamingNoise::generate`
(streaming_noise.rs lines 765–864, 1188–1458).

The mono base-noise source (`fft_gen.next()`) is abstracted as a stream
`f : ℕ → ℝ` with a counter of consumed samples.  The per-sweep filtering and
RMS-compensation stage (lines 1238–1376) is abstracted as a pair of
parameters `filtL filtR : ℕ → (ℕ → ℝ) → (ℕ → ℝ)` mapping (block start index,
raw copied block) to the filtered block: when `sweep_params` is empty the
source skips both stages, so the parameter is the identity; any concrete
sweep configuration instantiates it with some function of the block index
(the biquad and gain state evolution is deterministic in the block index once
`f` is fixed).  Ring arrays are modelled as functions `ℕ → ℝ` read and written
at indices reduced modulo their length, matching the source's `% BLOCK_SIZE` /
`% acc_size` index arithmetic; a per-slot functional update at offset
`(p + ACC_SIZE - write_pos) % ACC_SIZE < BLOCK_SIZE` is the pointwise
description of the source's `for i in 0..BLOCK_SIZE` accumulation loop, the
offsets being distinct because `BLOCK_SIZE ≤ ACC_SIZE`. -/

/-- `hann_window` (lines 767–772), per index. -/
def hann_window (n : ℕ) : ℝ :=
  0.5 - 0.5 * Real.cos (2 * Real.pi * (n : ℝ) / ((BLOCK_SIZE : ℝ) - 1))

structure OlaState where
  input_ring : ℕ → ℝ
  input_write_pos : ℕ
  input_samples_buffered : ℕ
  out_acc_l : ℕ → ℝ
  out_acc_r : ℕ → ℝ
  win_acc : ℕ → ℝ
  acc_read_pos : ℕ
  acc_write_pos : ℕ
  samples_ready : ℕ
  absolute_block_start : ℕ
  /-- Number of base-noise samples pulled so far (the position of the
  abstracted `fft_gen` stream). -/
  pulled : ℕ

/-- `OlaState::new` (lines 825–863). -/
def OlaState.init : OlaState :=
  { input_ring := fun _ => 0
    input_write_pos := 0
    input_samples_buffered := 0
    out_acc_l := fun _ => 0
    out_acc_r := fun _ => 0
    win_acc := fun _ => 0
    acc_read_pos := 0
    acc_write_pos := 0
    samples_ready := 0
    absolute_block_start := 0
    pulled := 0 }

/-- One iteration of the input-fill loop (generate, lines 1442–1447). -/
def push_input (f : ℕ → ℝ) (s : OlaState) : OlaState :=
  { s with
    input_ring := Function.update s.input_ring s.input_write_pos (f s.pulled)
    input_write_pos := (s.input_write_pos + 1) % BLOCK_SIZE
    input_samples_buffered := s.input_samples_buffered + 1
    pulled := s.pulled + 1 }

/-- The input-fill loop, unrolled `n` times (it runs
`BLOCK_SIZE - input_samples_buffered` times). -/
def fill_input (f : ℕ → ℝ) : ℕ → OlaState → OlaState
  | 0, s => s
  | n + 1, s => fill_input f n (push_input f s)

/-- `StreamingNoise::process_ola_block` (lines 1191–1400) with the
sweep-filtering and RMS-compensation stage abstracted as `filtL`/`filtR`:
copy the block from the input ring, filter, window, accumulate into the
overlap-add ring at the write offset, then advance the write offset by the
hop length. -/
def process_ola_block (filtL filtR : ℕ → (ℕ → ℝ) → ℕ → ℝ) (s : OlaState) : OlaState :=
  let blk : ℕ → ℝ := fun i =>
    s.input_ring ((s.input_write_pos + BLOCK_SIZE - s.input_samples_buffered + i) % BLOCK_SIZE)
  let bl := filtL s.absolute_block_start blk
  let br := filtR s.absolute_block_start blk
  let ofs : ℕ → ℕ := fun p => (p + ACC_SIZE - s.acc_write_pos) % ACC_SIZE
  { s with
    out_acc_l := fun p =>
      if ofs p < BLOCK_SIZE then s.out_acc_l p + bl (ofs p) * hann_window (ofs p)
      else s.out_acc_l p
    out_acc_r := fun p =>
      if ofs p < BLOCK_SIZE then s.out_acc_r p + br (ofs p) * hann_window (ofs p)
      else s.out_acc_r p
    win_acc := fun p =>
      if ofs p < BLOCK_SIZE then s.win_acc p + hann_window (ofs p)
      else s.win_acc p
    acc_write_pos := (s.acc_write_pos + HOP_SIZE) % ACC_SIZE
    samples_ready := s.samples_ready + HOP_SIZE
    absolute_block_start := s.absolute_block_start + HOP_SIZE }

/-- The read path of `generate` (lines 1410–1438): emit one stereo frame from
the accumulator ring (normalizing by the window weight, zero on zero weight),
clear the slot, advance the read offset. -/
def emit_frame (s : OlaState) : (ℝ × ℝ) × OlaState :=
  let wv := s.win_acc s.acc_read_pos
  let l := if (1e-8 : ℝ) < wv then s.out_acc_l s.acc_read_pos / wv else 0
  let r := if (1e-8 : ℝ) < wv then s.out_acc_r s.acc_read_pos / wv else 0
  ((l, r),
    { s with
      out_acc_l := Function.update s.out_acc_l s.acc_read_pos 0
      out_acc_r := Function.update s.out_acc_r s.acc_read_pos 0
      win_acc := Function.update s.win_acc s.acc_read_pos 0
      acc_read_pos := (s.acc_read_pos + 1) % ACC_SIZE
      samples_ready := s.samples_ready - 1 })

/-- `StreamingNoise::generate` (lines 1403–1458) producing `n` stereo frames:
emit a ready frame, or fill the input ring to a full block, process it (which
makes `HOP_SIZE` frames ready) and emit.  After a block is processed the input
bookkeeping logically retains `BLOCK_SIZE - HOP_SIZE` samples (50% overlap). -/
def generate_frames (filtL filtR : ℕ → (ℕ → ℝ) → ℕ → ℝ) (f : ℕ → ℝ) :
    ℕ → OlaState → List (ℝ × ℝ) × OlaState
  | 0, s => ([], s)
  | n + 1, s =>
    let s0 :=
      if 0 < s.samples_ready then s
      else
        { process_ola_block filtL filtR
            (fill_input f (BLOCK_SIZE - s.input_samples_buffered) s) with
          input_samples_buffered := BLOCK_SIZE - HOP_SIZE }
    let fr := emit_frame s0
    let rest := generate_frames filtL filtR f n fr.2
    (fr.1 :: rest.1, rest.2)

/-- The identity filtering stage: what lines 1238–1376 compute when
`sweep_params` is empty (both the filter loop and the RMS compensation are
skipped). -/
def id_filter : ℕ → (ℕ → ℝ) → ℕ → ℝ := fun _ blk => blk

/-- Whether block `k` (covering output indices `[k·HOP, k·HOP + BLOCK)`)
contributes to output index `m`. -/
def in_win (k m : ℕ) : Prop :=
  k * HOP_SIZE ≤ m ∧ m < k * HOP_SIZE + BLOCK_SIZE

instance (k m : ℕ) : Decidable (in_win k m) := by
  unfold in_win; infer_instance

/-- The block of base noise copied for block `k`: the input ring read wraps
modulo `BLOCK_SIZE`, so the copied function is `BLOCK_SIZE`-periodic in its
index. -/
def block_input (f : ℕ → ℝ) (k : ℕ) : ℕ → ℝ :=
  fun i => f (k * HOP_SIZE + i % BLOCK_SIZE)

/-- Accumulated window weight at output index `m` after `j` blocks. -/
def wsum (j m : ℕ) : ℝ :=
  ∑ k ∈ Finset.range j, if in_win k m then hann_window (m - k * HOP_SIZE) else 0

/-- Accumulated windowed sample sum at output index `m` after `j` blocks,
for the filtering stage `filt`. -/
def asum (filt : ℕ → (ℕ → ℝ) → ℕ → ℝ) (f : ℕ → ℝ) (j m : ℕ) : ℝ :=
  ∑ k ∈ Finset.range j,
    if in_win k m then
      filt (k * HOP_SIZE) (block_input f k) (m - k * HOP_SIZE) *
        hann_window (m - k * HOP_SIZE)
    else 0

/-- Number of base samples pulled once `j` blocks have been processed. -/
def pulled_at (j : ℕ) : ℕ := if j = 0 then 0 else BLOCK_SIZE + (j - 1) * HOP_SIZE

/-- `input_samples_buffered` once `j` blocks have been processed. -/
def buffered_at (j : ℕ) : ℕ := if j = 0 then 0 else BLOCK_SIZE - HOP_SIZE

/-- Full characterization of the reachable OLA states: `j` blocks processed,
`e` frames emitted. -/
def OlaInv (filtL filtR : ℕ → (ℕ → ℝ) → ℕ → ℝ) (f : ℕ → ℝ) (s : OlaState)
    (j e : ℕ) : Prop :=
  e ≤ j * HOP_SIZE ∧
  j * HOP_SIZE ≤ e + HOP_SIZE ∧
  s.samples_ready = j * HOP_SIZE - e ∧
  s.acc_read_pos = e % ACC_SIZE ∧
  s.acc_write_pos = (j * HOP_SIZE) % ACC_SIZE ∧
  s.absolute_block_start = j * HOP_SIZE ∧
  s.pulled = pulled_at j ∧
  s.input_samples_buffered = buffered_at j ∧
  s.input_write_pos = s.pulled % BLOCK_SIZE ∧
  (∀ k, k < s.pulled → s.pulled ≤ k + BLOCK_SIZE → s.input_ring (k % BLOCK_SIZE) = f k) ∧
  (∀ m, e ≤ m → m < e + ACC_SIZE →
    s.win_acc (m % ACC_SIZE) = wsum j m ∧
    s.out_acc_l (m % ACC_SIZE) = asum filtL f j m ∧
    s.out_acc_r (m % ACC_SIZE) = asum filtR f j m)

/-- Total accumulated window weight at output index `m` at the moment it is
emitted (all contributing blocks have been processed by then). -/
def w_total (m : ℕ) : ℝ := wsum (m / HOP_SIZE + 1) m

/-- The left-channel value `generate` emits at global output index `m`. -/
def emitted_value (filt : ℕ → (ℕ → ℝ) → ℕ → ℝ) (f : ℕ → ℝ) (m : ℕ) : ℝ :=
  if (1e-8 : ℝ) < w_total m then asum filt f (m / HOP_SIZE + 1) m / w_total m else 0

/-! ## Concrete instances used by witnesses and counterexamples -/

/-- The renorm fields as initialized by `FftNoiseGenerator::new`
(lines 544–556). -/
def renorm_init : RenormState :=
  { renorm_gain := 1, smoothed_gain := 1, renorm_initialized := false,
    pre_rms_accum := 0, post_rms_accum := 0, rms_samples := 0, is_unmodulated := true }

/-- A call environment in which `try_send` fails and `try_recv` is empty. -/
def env_empty : WorkerEnv := { send_ok := false, recv := .empty }

/-- The generator state produced by `FftNoiseGenerator::new` for a short clip
(`size = 8`, reached for any requested duration below 8 samples) with the two
priming buffers abstracted as given sample lists, after `cursor` samples have
been played with the second buffer still marked ready. -/
def fft_small (buf1 buf2 : List ℝ) (cursor : ℕ) : FftNoiseGenerator :=
  { buffer := buf1
    next_buffer_storage := buf2
    next_buffer_ready := true
    cursor := cursor
    size := 8
    worker_requested := false
    lp_filters := none
    hp_filters := none
    base_amplitude := 1
    renorm := renorm_init
    underrun_recovering := false
    underrun_fade_pos := 0 }

/-- A generator state at the exact moment an underrun is declared: the active
buffer is exhausted and no replacement is ready. -/
def fft_underrun_ex : FftNoiseGenerator :=
  { buffer := [0]
    next_buffer_storage := []
    next_buffer_ready := false
    cursor := 1
    size := 8
    worker_requested := false
    lp_filters := none
    hp_filters := none
    base_amplitude := 1
    renorm := renorm_init
    underrun_recovering := false
    underrun_fade_pos := 0 }

/-- A generator state inside the crossfade region with a ready replacement. -/
def fft_crossfade_ex : FftNoiseGenerator :=
  { buffer := [0, 0]
    next_buffer_storage := [0]
    next_buffer_ready := true
    cursor := 0
    size := 8
    worker_requested := false
    lp_filters := none
    hp_filters := none
    base_amplitude := 1
    renorm := renorm_init
    underrun_recovering := false
    underrun_fade_pos := 0 }

/-- A `NoiseParams` value with every optional field absent and no sweeps. -/
def np_default : NoiseParams :=
  { noise_name := none, exponent := none, high_exponent := none,
    distribution_curve := none, lowcut := none, highcut := none, amplitude := none,
    duration_seconds := 1, sweeps := [], transition := false, lfo_freq := 0,
    start_lfo_freq := 0, end_lfo_freq := 0, start_lfo_phase_offset_deg := 0,
    end_lfo_phase_offset_deg := 0, start_intra_phase_offset_deg := 0,
    end_intra_phase_offset_deg := 0, lfo_waveform := "sine", initial_offset := 0 }

/-- `np_default` with an unrecognized noise name. -/
def np_magenta : NoiseParams := { np_default with noise_name := some "magenta" }

/-- A sweep request with both cascade endpoints set to `c` and every other
field left to its documented default. -/
def sw_casc (c : ℕ) : SweepInput :=
  { start_min := 0, end_min := 0, start_max := 0, end_max := 0,
    start_q := 0, end_q := 0, start_casc := c, end_casc := c }

/-- A parameter set with a single sweep of cascade count `c`. -/
def np_sweep (c : ℕ) : NoiseParams := { np_default with sweeps := [sw_casc c] }

/-- The per-sweep biquad state arrays (contents, hence also lengths). -/
def runtime_arrays (rt : SweepRuntime) :
    List BiquadState64 × List BiquadState64 × List BiquadState64 × List BiquadState64 :=
  (rt.l_main, rt.r_main, rt.l_extra, rt.r_extra)

/-- Equality of the `FftNoiseGenerator` fields that the trigger and poll
phases never touch while the worker stays silent. -/
def core_eq (a b : FftNoiseGenerator) : Prop :=
  a.buffer = b.buffer ∧ a.cursor = b.cursor ∧ a.next_buffer_ready = b.next_buffer_ready ∧
  a.underrun_recovering = b.underrun_recovering ∧ a.underrun_fade_pos = b.underrun_fade_pos ∧
  a.lp_filters = b.lp_filters ∧ a.hp_filters = b.hp_filters ∧ a.renorm = b.renorm ∧
  a.base_amplitude = b.base_amplitude

/-- The shape of a short-clip generator state: `size = 8` (reached for any
requested duration under 8 samples), both buffers of length 8, the replacement
buffer ready, no regeneration request in flight, not recovering, cursor at
`c`.  This is the state `FftNoiseGenerator::new` leaves behind (with `c = 0`)
and `next` preserves it, incrementing `c`, until the first buffer swap. -/
def small_shape (s : FftNoiseGenerator) (c : ℕ) : Prop :=
  s.buffer.length = 8 ∧ s.next_buffer_storage.length = 8 ∧
  s.next_buffer_ready = true ∧ s.cursor = c ∧ s.size = 8 ∧
  s.worker_requested = false ∧ s.underrun_recovering = false

/-! # Theorems -/

/-! ## C4: per-sample skip/cascade behavior of `biquad_time_varying_block` -/

theorem tv_block_index (sr : ℝ) :
    ∀ (i : ℕ) (entries : List (ℝ × ℝ × ℝ × ℕ)) (st : List BiquadState64)
      (x freq q : ℝ) (casc : ℕ),
      entries.get? i = some (x, freq, q, casc) →
      (biquad_time_varying_block sr entries st).1.get? i =
        some (tv_sample sr x freq q casc
          ((biquad_time_varying_block sr (entries.take i) st).2)).1 ∧
      (biquad_time_varying_block sr (entries.take (i + 1)) st).2 =
        (tv_sample sr x freq q casc
          ((biquad_time_varying_block sr (entries.take i) st).2)).2 := by
  intro i
  induction i with
  | zero =>
    intro entries st x freq q casc hget
    cases entries with
    | nil => simp at hget
    | cons en rest =>
      obtain rfl : en = (x, freq, q, casc) := by simpa using hget
      simp [biquad_time_varying_block]
  | succ i ih =>
    intro entries st x freq q casc hget
    cases entries with
    | nil => simp at hget
    | cons en rest =>
      have hget2 : rest.get? i = some (x, freq, q, casc) := by simpa using hget
      obtain ⟨x0, f0, q0, c0⟩ := en
      have h1 := ih rest (tv_sample sr x0 f0 q0 c0 st).2 x freq q casc hget2
      refine ⟨?_, ?_⟩
      · simpa [biquad_time_varying_block] using h1.1
      · simpa [biquad_time_varying_block, List.take_succ_cons] using h1.2

/-- C4: for every sample index of `biquad_time_varying_block`, a requested
frequency that is non-positive or at or above `0.49 × sample_rate` leaves that
sample unchanged and updates no filter state for that index, and otherwise the
sample is run through exactly the clamped cascade count of stages, each stage
using its own persistent slot of the state list.  (A non-finite `f32`
frequency, which the source also skips, has no ℝ counterpart.) -/
theorem biquad_tv_per_sample (sr : ℝ) (i : ℕ) (entries : List (ℝ × ℝ × ℝ × ℕ))
    (st : List BiquadState64) (x freq q : ℝ) (casc : ℕ)
    (hget : entries.get? i = some (x, freq, q, casc)) :
    (skip_freq sr freq →
      (biquad_time_varying_block sr entries st).1.get? i = some x ∧
      (biquad_time_varying_block sr (entries.take (i + 1)) st).2 =
        (biquad_time_varying_block sr (entries.take i) st).2) ∧
    (¬skip_freq sr freq →
      (biquad_time_varying_block sr entries st).1.get? i =
        some (cascade_run
          (if casc < 1 then 1
            else min casc ((biquad_time_varying_block sr (entries.take i) st).2).length)
          (notch_coeffs_f64 freq (max q (1e-6)) sr) x
          ((biquad_time_varying_block sr (entries.take i) st).2)).1 ∧
      (biquad_time_varying_block sr (entries.take (i + 1)) st).2 =
        (cascade_run
          (if casc < 1 then 1
            else min casc ((biquad_time_varying_block sr (entries.take i) st).2).length)
          (notch_coeffs_f64 freq (max q (1e-6)) sr) x
          ((biquad_time_varying_block sr (entries.take i) st).2)).2) := by
  have h := tv_block_index sr i entries st x freq q casc hget
  constructor
  · intro hskip
    refine ⟨?_, ?_⟩
    · rw [h.1]; simp [tv_sample, hskip]
    · rw [h.2]; simp [tv_sample, hskip]
  · intro hskip
    refine ⟨?_, ?_⟩
    · rw [h.1]; simp [tv_sample, hskip]
    · rw [h.2]; simp [tv_sample, hskip]

theorem biquad_tv_per_sample_witness :
    (biquad_time_varying_block 44100 [((1 : ℝ), 0, 1, 3)] [BiquadState64.init]).1.get? 0 =
      some 1 ∧
    (biquad_time_varying_block 44100 ([((1 : ℝ), 0, 1, 3)].take 1) [BiquadState64.init]).2 =
      (biquad_time_varying_block 44100 ([((1 : ℝ), 0, 1, 3)].take 0) [BiquadState64.init]).2 :=
  (biquad_tv_per_sample 44100 0 [((1 : ℝ), 0, 1, 3)] [BiquadState64.init] 1 0 1 3 rfl).1
    (Or.inl le_rfl)

/-! ## C2: RMS locking in `AsyncNoiseWorker::regenerate_into` -/

theorem foldl_add_sq (l : List ℝ) : ∀ a : ℝ,
    l.foldl (fun a x => a + x * x) a = a + l.foldl (fun a x => a + x * x) 0 := by
  induction l with
  | nil => intro a; simp
  | cons x xs ih =>
    intro a
    rw [List.foldl_cons, List.foldl_cons, ih (a + x * x), ih (0 + x * x)]
    ring

theorem sum_sq_cons (x : ℝ) (xs : List ℝ) : sum_sq (x :: xs) = x * x + sum_sq xs := by
  simp only [sum_sq, List.foldl_cons]
  rw [foldl_add_sq]
  ring

theorem sum_sq_nonneg (l : List ℝ) : 0 ≤ sum_sq l := by
  induction l with
  | nil => simp [sum_sq]
  | cons x xs ih => rw [sum_sq_cons]; nlinarith

theorem sum_sq_map_mul (g : ℝ) (l : List ℝ) :
    sum_sq (l.map fun x => x * g) = g ^ 2 * sum_sq l := by
  induction l with
  | nil => simp [sum_sq]
  | cons x xs ih => rw [List.map_cons, sum_sq_cons, sum_sq_cons, ih]; ring

theorem foldl_max_abs_le (l : List ℝ) (a b : ℝ) (hab : a ≤ b) :
    l.foldl (fun a x => max a |x|) a ≤ l.foldl (fun a x => max a |x|) b := by
  induction l generalizing a b with
  | nil => simpa using hab
  | cons x xs ih => exact ih _ _ (max_le_max_right _ hab)

theorem le_foldl_max_abs (l : List ℝ) (a : ℝ) :
    a ≤ l.foldl (fun a x => max a |x|) a := by
  induction l generalizing a with
  | nil => simp
  | cons x xs ih => exact le_trans (le_max_left a |x|) (ih _)

theorem mem_le_max_abs (l : List ℝ) (x : ℝ) (hx : x ∈ l) : |x| ≤ max_abs l := by
  induction l with
  | nil => simp at hx
  | cons y ys ih =>
    rcases List.mem_cons.mp hx with rfl | hmem
    · exact le_trans (le_max_right 0 |x|) (le_foldl_max_abs ys _)
    · exact le_trans (ih hmem) (foldl_max_abs_le ys 0 (max 0 |y|) (le_max_left _ _))

theorem max_abs_nonneg (l : List ℝ) : 0 ≤ max_abs l :=
  le_foldl_max_abs l 0

theorem sum_sq_le_card_mul (l : List ℝ) : sum_sq l ≤ l.length * max_abs l ^ 2 := by
  induction l with
  | nil => simp [sum_sq]
  | cons x xs ih =>
    rw [sum_sq_cons]
    have h1 : |x| ≤ max_abs (x :: xs) := mem_le_max_abs _ x (List.mem_cons_self x xs)
    have h2 : max_abs xs ≤ max_abs (x :: xs) :=
      foldl_max_abs_le xs 0 (max 0 |x|) (le_max_left _ _)
    have h3 : x * x ≤ max_abs (x :: xs) ^ 2 := by
      have := abs_nonneg x
      nlinarith [sq_abs x]
    have h4 : sum_sq xs ≤ xs.length * max_abs (x :: xs) ^ 2 := by
      have hm0 : 0 ≤ max_abs xs := max_abs_nonneg xs
      have : (xs.length : ℝ) * max_abs xs ^ 2 ≤ xs.length * max_abs (x :: xs) ^ 2 := by
        have : max_abs xs ^ 2 ≤ max_abs (x :: xs) ^ 2 := by nlinarith
        have hn : (0 : ℝ) ≤ xs.length := Nat.cast_nonneg _
        nlinarith
      exact le_trans ih this
    have hlen : ((x :: xs).length : ℝ) = xs.length + 1 := by
      rw [List.length_cons]
      push_cast
      ring
    rw [hlen]
    nlinarith

theorem buffer_rms_le_max_abs (l : List ℝ) : buffer_rms l ≤ max_abs l := by
  rcases l with _ | ⟨x, xs⟩
  · simp [buffer_rms, sum_sq, max_abs]
  · have hn : (0 : ℝ) < (x :: xs).length := by exact_mod_cast Nat.succ_pos xs.length
    have hdiv : sum_sq (x :: xs) / (x :: xs).length ≤ max_abs (x :: xs) ^ 2 := by
      rw [div_le_iff hn]
      calc sum_sq (x :: xs) ≤ (x :: xs).length * max_abs (x :: xs) ^ 2 :=
            sum_sq_le_card_mul _
        _ = max_abs (x :: xs) ^ 2 * (x :: xs).length := by ring
    calc buffer_rms (x :: xs) ≤ Real.sqrt (max_abs (x :: xs) ^ 2) :=
          Real.sqrt_le_sqrt hdiv
      _ = |max_abs (x :: xs)| := Real.sqrt_sq_eq_abs _
      _ = max_abs (x :: xs) := abs_of_nonneg (max_abs_nonneg _)

theorem buffer_rms_map_mul (g : ℝ) (l : List ℝ) :
    buffer_rms (l.map fun x => x * g) = |g| * buffer_rms l := by
  unfold buffer_rms
  rw [sum_sq_map_mul, List.length_map, mul_div_assoc, Real.sqrt_mul (sq_nonneg g),
    Real.sqrt_sq_eq_abs]

/-- C2: in the RMS-locking stage of `regenerate_into`, a first buffer whose
RMS exceeds the `1e-9` threshold is peak-normalized and the resulting RMS is
locked as the target; every later buffer is scaled by the uniform gain
`target_rms / current_rms` and clamped to `[-1, 1]` per sample, and —
whenever no sample actually clamps — its resulting RMS equals the locked
target exactly (over ℝ). -/
theorem regenerate_rms_lock_spec (buf : List ℝ) (t : ℝ)
    (hloud : (1e-9 : ℝ) < buffer_rms buf) :
    (regenerate_rms_lock none buf =
      (buf.map fun x => x / max_abs buf,
        some (buffer_rms (buf.map fun x => x / max_abs buf)))) ∧
    (regenerate_rms_lock (some t) buf =
      (buf.map fun x => clamp_unit (x * (t / buffer_rms buf)), some t)) ∧
    (0 ≤ t → (∀ x ∈ buf, |x * (t / buffer_rms buf)| ≤ 1) →
      buffer_rms (regenerate_rms_lock (some t) buf).1 = t) := by
  have hmax : (1e-9 : ℝ) < max_abs buf := lt_of_lt_of_le hloud (buffer_rms_le_max_abs buf)
  have hrms_pos : 0 < buffer_rms buf := lt_trans (by norm_num) hloud
  have hstep : regenerate_rms_lock (some t) buf =
      (buf.map fun x => clamp_unit (x * (t / buffer_rms buf)), some t) := by
    simp [regenerate_rms_lock, hloud]
  refine ⟨?_, hstep, ?_⟩
  · simp [regenerate_rms_lock, hloud, hmax]
  · intro ht hnc
    have hmap : (buf.map fun x => clamp_unit (x * (t / buffer_rms buf))) =
        buf.map fun x => x * (t / buffer_rms buf) := by
      refine List.map_congr_left ?_
      intro x hx
      have := hnc x hx
      unfold clamp_unit
      rcases abs_le.mp this with ⟨hlo, hhi⟩
      rw [max_eq_right hlo, min_eq_right hhi]
    have hg : 0 ≤ t / buffer_rms buf := div_nonneg ht (le_of_lt hrms_pos)
    rw [hstep]
    simp only
    rw [hmap, buffer_rms_map_mul, abs_of_nonneg hg, div_mul_cancel₀ t (ne_of_gt hrms_pos)]

theorem regenerate_rms_lock_witness :
    buffer_rms (regenerate_rms_lock (some (1 / 2)) [1, -1]).1 = 1 / 2 := by
  have hsq : sum_sq [(1 : ℝ), -1] = 2 := by
    rw [sum_sq_cons, sum_sq_cons]
    simp [sum_sq]
    norm_num
  have hr : buffer_rms [(1 : ℝ), -1] = 1 := by
    rw [buffer_rms, hsq]
    norm_num
  refine (regenerate_rms_lock_spec [(1 : ℝ), -1] (1 / 2) (by rw [hr]; norm_num)).2.2
    (by norm_num) ?_
  intro x hx
  rw [hr]
  rcases List.mem_cons.mp hx with rfl | hx2
  · refine abs_le.mpr ⟨by norm_num, by norm_num⟩
  · rcases List.mem_cons.mp hx2 with rfl | hx3
    · refine abs_le.mpr ⟨by norm_num, by norm_num⟩
    · simp at hx3

/-! ## C9: hardware-callback fill behavior of `mix_from_ringbuffer` -/

theorem getD_mapIdx (l : List ℝ) (f : ℕ → ℝ → ℝ) (i : ℕ) (hi : i < l.length) :
    (l.mapIdx f).getD i 0 = f i (l.getD i 0) := by
  have h' : i < (l.mapIdx f).length := by simpa [List.length_mapIdx] using hi
  rw [List.getD_eq_getElem?_getD, List.getElem?_eq_getElem h',
    List.getD_eq_getElem?_getD, List.getElem?_eq_getElem hi]
  simp [List.get_mapIdx _ _ _ hi]

/-- C9: when the ring buffer holds fewer samples than the callback needs,
`mix_from_ringbuffer` fills every output position past the last popped sample
with the last delivered sample value (the previous one if nothing was popped),
and when samples are popped while occupancy is below the low watermark the
copied region is cross-faded from the last delivered sample into the popped
material. -/
theorem mix_from_ringbuffer_spec (ring : List ℝ) (out_len : ℕ) (last : ℝ) (lw : ℕ)
    (hshort : ring.length < out_len) :
    ((mix_from_ringbuffer ring out_len last lw).1.length = out_len) ∧
    (∀ k, ring.length ≤ k → k < out_len →
      (mix_from_ringbuffer ring out_len last lw).1.getD k 0 =
        (mix_from_ringbuffer ring out_len last lw).2.1) ∧
    (ring = [] → (mix_from_ringbuffer ring out_len last lw).2.1 = last) ∧
    (ring.length < lw → ∀ i, i < ring.length →
      (mix_from_ringbuffer ring out_len last lw).1.getD i 0 =
        last * (1 - ((i : ℝ) + 1) / (ring.length : ℝ)) +
          ring.getD i 0 * (((i : ℝ) + 1) / (ring.length : ℝ))) := by
  have hc : min out_len ring.length = ring.length := min_eq_right hshort.le
  simp only [mix_from_ringbuffer, hc, List.take_length]
  constructor
  · -- length
    by_cases hfade : 0 < ring.length ∧ ring.length < lw
    · simp [hfade, List.length_mapIdx]
      omega
    · simp [hfade]
      omega
  refine ⟨?_, ?_, ?_⟩
  · -- tail fill
    intro k hk1 hk2
    have hdlen :
        (if 0 < ring.length ∧ ring.length < lw then
            ring.mapIdx fun idx x =>
              last * (1 - ((idx : ℝ) + 1) / (ring.length : ℝ)) +
                x * (((idx : ℝ) + 1) / (ring.length : ℝ))
          else ring).length = ring.length := by
      by_cases hfade : 0 < ring.length ∧ ring.length < lw
      · simp [hfade, List.length_mapIdx]
      · simp [hfade]
    rw [List.getD_eq_getElem?_getD, List.getElem?_append_right (by omega)]
    rw [hdlen, List.getElem?_replicate]
    have : k - ring.length < out_len - ring.length := by omega
    simp [this]
  · -- nothing popped
    intro hnil
    subst hnil
    simp
  · -- fade formula
    intro hlw i hi
    have hfade : 0 < ring.length ∧ ring.length < lw := ⟨by omega, hlw⟩
    rw [if_pos hfade]
    have hdlen : (ring.mapIdx fun idx x =>
        last * (1 - ((idx : ℝ) + 1) / (ring.length : ℝ)) +
          x * (((idx : ℝ) + 1) / (ring.length : ℝ))).length = ring.length := by
      simp [List.length_mapIdx]
    rw [List.getD_eq_getElem?_getD, List.getElem?_append_left (by omega),
      ← List.getD_eq_getElem?_getD, getD_mapIdx ring _ i hi]

theorem mix_from_ringbuffer_witness :
    (mix_from_ringbuffer [2] 3 0 5).1.getD 1 0 = (mix_from_ringbuffer [2] 3 0 5).2.1 :=
  (mix_from_ringbuffer_spec [2] 3 0 5 (by norm_num)).2.1 1 (by norm_num) (by norm_num)

/-! ## C7: preset fallback for missing vs. unrecognized noise names -/

theorem preset_magenta_none : preset_for_type (to_lowercase "magenta") = none := by
  have h : to_lowercase "magenta" = "magenta" := by decide
  rw [h]
  unfold preset_for_type
  rw [if_neg (by decide), if_neg (by decide), if_neg (by decide), if_neg (by decide),
    if_neg (by decide), if_neg (by decide), if_neg (by decide), if_neg (by decide)]

/-- C7 fails as stated: a `NoiseParams` whose name is the unrecognized string
`"magenta"` (with no exponent/high-exponent/curve overrides) resolves to
exponent `0.0`, not the pink preset's `1.0`. -/
theorem preset_fallback_counterexample :
    (resolved_exponents np_magenta).1 = 0 ∧ (resolved_exponents np_magenta).1 ≠ 1 := by
  have hname : resolved_noise_name np_magenta = "magenta" := rfl
  have h3 : preset_for_type (to_lowercase (resolved_noise_name np_magenta)) = none := by
    rw [hname]; exact preset_magenta_none
  have he : np_magenta.exponent = none := rfl
  have hh2 : np_magenta.high_exponent = none := rfl
  have hd2 : np_magenta.distribution_curve = none := rfl
  have hval : resolved_exponents np_magenta = (0, 0, 1) := by
    simp only [resolved_exponents]
    rw [h3, he, hh2, hd2]
    simp [Option.orElse]
    norm_num
  rw [hval]
  norm_num

/-- C7 amended: when no exponent/high-exponent/curve override is given, a
missing `"name"` entry resolves to the pink preset values `(1, 1, 1)`, while
an unrecognized name string resolves to the bare defaults `(0, 0, 1)` (white,
not pink). -/
theorem preset_fallback_amended (p : NoiseParams)
    (he : p.exponent = none) (hh : p.high_exponent = none)
    (hd : p.distribution_curve = none) :
    (p.noise_name = none → resolved_exponents p = (1, 1, 1)) ∧
    (∀ nm, p.noise_name = some nm → preset_for_type (to_lowercase nm) = none →
      resolved_exponents p = (0, 0, 1)) := by
  constructor
  · intro hn
    have hlabel : resolved_noise_name p = "pink" := by rw [resolved_noise_name, hn]; rfl
    have hlow : to_lowercase "pink" = "pink" := by decide
    have hp : preset_for_type (to_lowercase (resolved_noise_name p)) =
        some (1, 1, 1, none, none, 1) := by
      rw [hlabel, hlow]
      unfold preset_for_type
      rw [if_pos rfl]
    simp only [resolved_exponents]
    rw [hp, he, hh, hd]
    simp [Option.orElse]
    norm_num
  · intro nm hn hnone
    have hlabel : resolved_noise_name p = nm := by rw [resolved_noise_name, hn]; rfl
    have hp : preset_for_type (to_lowercase (resolved_noise_name p)) = none := by
      rw [hlabel]; exact hnone
    simp only [resolved_exponents]
    rw [hp, he, hh, hd]
    simp [Option.orElse]
    norm_num

theorem preset_fallback_amended_witness :
    resolved_exponents np_default = (1, 1, 1) ∧ resolved_exponents np_magenta = (0, 0, 1) :=
  ⟨(preset_fallback_amended np_default rfl rfl rfl).1 rfl,
    (preset_fallback_amended np_magenta rfl rfl rfl).2 "magenta" rfl preset_magenta_none⟩

/-! ## C8: realtime parameter updates and stage-state capacity -/

theorem update_casc_loop_arrays : ∀ (rts : List SweepRuntime) (sps : List SweepParams),
    (update_casc_loop rts sps).2.map runtime_arrays = rts.map runtime_arrays := by
  intro rts
  induction rts with
  | nil => intro sps; cases sps <;> simp [update_casc_loop]
  | cons rt rts ih =>
    intro sps
    cases sps with
    | nil => simp [update_casc_loop]
    | cons sp sps =>
      simp only [update_casc_loop]
      by_cases h : rt.max_casc < max (max sp.start_casc sp.end_casc) 1
      · rw [if_pos h]
      · rw [if_neg h]
        simp [runtime_arrays, ih]

theorem update_casc_loop_true_iff : ∀ (rts : List SweepRuntime) (sps : List SweepParams),
    (update_casc_loop rts sps).1 = true ↔
      ∀ pr ∈ rts.zip sps, max (max pr.2.start_casc pr.2.end_casc) 1 ≤ pr.1.max_casc := by
  intro rts
  induction rts with
  | nil => intro sps; cases sps <;> simp [update_casc_loop]
  | cons rt rts ih =>
    intro sps
    cases sps with
    | nil => simp [update_casc_loop]
    | cons sp sps =>
      simp only [update_casc_loop]
      by_cases h : rt.max_casc < max (max sp.start_casc sp.end_casc) 1
      · rw [if_pos h]
        simp only [List.zip_cons_cons, List.mem_cons]
        constructor
        · intro hfalse; exact absurd hfalse (by simp)
        · intro hall
          have h2 : max (max sp.start_casc sp.end_casc) 1 ≤ rt.max_casc :=
            hall (rt, sp) (Or.inl rfl)
          omega
      · rw [if_neg h]
        simp only [List.zip_cons_cons, List.mem_cons, ih]
        constructor
        · intro hall pr hpr
          rcases hpr with rfl | hpr
          · show max (max sp.start_casc sp.end_casc) 1 ≤ rt.max_casc
            omega
          · exact hall pr hpr
        · intro hall pr hpr
          exact hall pr (Or.inr hpr)

/-- C8 amended: `update_realtime_params` succeeds exactly when the sweep-list
length matches and, for every zipped (runtime, new sweep) pair, the new
maximum cascade count does not exceed the runtime's current `max_casc` bound —
the bound as possibly lowered by earlier successful updates, not the
originally allocated array capacity.  In every case (success or rejection) the
per-stage biquad state arrays are untouched, so no state array ever grows; on
rejection `sweep_params` is also unchanged (though `max_casc` bounds of sweeps
earlier in the list than the offending one have already been updated); on
success the new sweep parameters are installed. -/
theorem update_realtime_params_spec (s : StreamingNoiseCfg) (p : NoiseParams) :
    ((update_realtime_params s p).1 = true ↔
      (p.sweeps.length = s.sweep_params.length ∧
        ∀ pr ∈ s.sweep_runtime.zip (build_sweep_params p),
          max (max pr.2.start_casc pr.2.end_casc) 1 ≤ pr.1.max_casc)) ∧
    ((update_realtime_params s p).2.sweep_runtime.map runtime_arrays =
      s.sweep_runtime.map runtime_arrays) ∧
    ((update_realtime_params s p).1 = false →
      (update_realtime_params s p).2.sweep_params = s.sweep_params) ∧
    ((update_realtime_params s p).1 = true →
      (update_realtime_params s p).2.sweep_params = build_sweep_params p) := by
  by_cases hlen : p.sweeps.length = s.sweep_params.length
  · rw [update_realtime_params, if_neg (not_not_intro hlen)]
    cases hb : (update_casc_loop s.sweep_runtime (build_sweep_params p)).1 with
    | true =>
      simp only [hb, if_pos]
      refine ⟨?_, ?_, ?_, ?_⟩
      · simp only [true_iff]
        exact ⟨hlen, (update_casc_loop_true_iff _ _).mp hb⟩
      · exact update_casc_loop_arrays _ _
      · intro hfalse; exact absurd hfalse (by simp)
      · intro _; trivial
    | false =>
      simp only [hb, if_neg, Bool.false_eq_true, if_false]
      refine ⟨?_, ?_, ?_, ?_⟩
      · simp only [Bool.false_eq_true, false_iff]
        intro hcontra
        have := (update_casc_loop_true_iff s.sweep_runtime (build_sweep_params p)).mpr hcontra.2
        rw [hb] at this
        exact absurd this (by simp)
      · exact update_casc_loop_arrays _ _
      · intro _; trivial
      · intro hcontra; exact absurd hcontra (by simp)
  · rw [update_realtime_params, if_pos hlen]
    refine ⟨?_, rfl, fun _ => rfl, ?_⟩
    · simp only [Bool.false_eq_true, false_iff]
      intro hcontra
      exact hlen hcontra.1
    · intro hcontra; exact absurd hcontra (by simp)

theorem update_realtime_params_spec_witness :
    (update_realtime_params (streaming_noise_cfg (np_sweep 10)) (np_sweep 5)).2.sweep_params =
      build_sweep_params (np_sweep 5) :=
  (update_realtime_params_spec _ _).2.2.2 (by decide)

/-- C8 fails as stated: provision one sweep with cascade count 10 (biquad
state arrays of length 10), successfully update to cascade 5, then request
cascade 8.  The required count 8 does not exceed the originally provisioned
capacity 10, yet the update is rejected, because the check compares against
the current `max_casc` (5), not the original allocation. -/
theorem update_realtime_params_counterexample :
    ((streaming_noise_cfg (np_sweep 10)).sweep_runtime.map fun rt => rt.l_main.length) =
      [10] ∧
    (update_realtime_params (streaming_noise_cfg (np_sweep 10)) (np_sweep 5)).1 = true ∧
    (update_realtime_params
      (update_realtime_params (streaming_noise_cfg (np_sweep 10)) (np_sweep 5)).2
      (np_sweep 8)).1 = false := by
  refine ⟨by decide, by decide, by decide⟩

/-! ## C6: crossfade blending curve -/

/-- C6 fails as stated: the crossfade pair is not equal-power — at the
midpoint `t = 1/2` both weights are `1/2` and the sum of their squares is
`1/2`, not `1`. -/
theorem crossfade_equal_power_counterexample :
    fade_out_weight (1 / 2) ^ 2 + fade_in_weight (1 / 2) ^ 2 = 1 / 2 ∧
    fade_out_weight (1 / 2) ^ 2 + fade_in_weight (1 / 2) ^ 2 ≠ 1 := by
  have h : fade_out_weight (1 / 2) = 1 / 2 := by
    unfold fade_out_weight
    rw [show Real.pi * (1 / 2) = Real.pi / 2 by ring, Real.cos_pi_div_two]
    norm_num
  have h2 : fade_in_weight (1 / 2) = 1 / 2 := by
    unfold fade_in_weight
    rw [h]
    norm_num
  rw [h, h2]
  norm_num

/-- C6 amended: in the crossfade region `next` blends the outgoing and
incoming buffers with the raised-cosine weight pair
`fade_out = 0.5·(1 + cos(π t))`, `fade_in = 1 − fade_out`.  The pair is
complementary in amplitude (sums to 1 for every `t`, with endpoints 1 and 0)
and is not the linear ramp `1 − t`; it is not equal-power: the sum of the
squared weights at the midpoint is `1/2`, not `1`. -/
theorem crossfade_raised_cosine (env : WorkerEnv) (s : FftNoiseGenerator)
    (hready : s.next_buffer_ready = true) (hreq : s.worker_requested = false)
    (hcur : s.cursor < s.buffer.length)
    (hstart : s.buffer.length - s.crossfade_len ≤ s.cursor)
    (hcl : 0 < s.crossfade_len) (hst : s.next_buffer_storage ≠ [])
    (hrec : s.underrun_recovering = false) :
    ((FftNoiseGenerator.next env s).map Prod.fst = some
      (post_chain s.lp_filters s.hp_filters s.renorm s.base_amplitude
        (s.buffer.getD s.cursor 0 *
          fade_out_weight
            (((s.cursor - (s.buffer.length - s.crossfade_len) : ℕ) : ℝ) /
              (s.crossfade_len : ℝ)) +
          s.next_buffer_storage.getD (s.cursor - (s.buffer.length - s.crossfade_len)) 0 *
            fade_in_weight
              (((s.cursor - (s.buffer.length - s.crossfade_len) : ℕ) : ℝ) /
                (s.crossfade_len : ℝ)))).1) ∧
    (∀ t : ℝ, fade_out_weight t + fade_in_weight t = 1) ∧
    fade_out_weight 0 = 1 ∧
    fade_out_weight 1 = 0 ∧
    fade_out_weight (1 / 4) ≠ 3 / 4 ∧
    fade_out_weight (1 / 2) ^ 2 + fade_in_weight (1 / 2) ^ 2 = 1 / 2 := by
  refine ⟨?_, ?_, ?_, ?_, ?_, ?_⟩
  · -- the blend branch of next
    have h1 : ¬(s.next_buffer_ready = false ∧ s.worker_requested = false ∧
        s.size / 2 ≤ s.cursor) := by
      rw [hready]; simp
    have h2 : ¬(s.worker_requested = true) := by rw [hreq]; simp
    have h3 : ¬(s.underrun_recovering = true) := by rw [hrec]; simp
    have hs1 : poll_phase env (trigger_phase env s) = s := by
      unfold trigger_phase poll_phase
      rw [if_neg h1, if_neg h2]
    have hsw : switch_phase s = s := by
      unfold switch_phase
      rw [if_neg (by omega)]
    have hget : s.buffer.get? s.cursor = some (s.buffer.getD s.cursor 0) := by
      rw [List.get?_eq_getElem?, List.getElem?_eq_getElem hcur,
        List.getD_eq_getElem?_getD, List.getElem?_eq_getElem hcur]
      rfl
    have hread : read_sample s.crossfade_len s =
        some (s.buffer.getD s.cursor 0 *
          fade_out_weight
            (((s.cursor - (s.buffer.length - s.crossfade_len) : ℕ) : ℝ) /
              (s.crossfade_len : ℝ)) +
          s.next_buffer_storage.getD (s.cursor - (s.buffer.length - s.crossfade_len)) 0 *
            fade_in_weight
              (((s.cursor - (s.buffer.length - s.crossfade_len) : ℕ) : ℝ) /
                (s.crossfade_len : ℝ))) := by
      unfold read_sample
      rw [if_pos hready, if_pos ⟨hstart, hcl, hst⟩, hget]
    unfold FftNoiseGenerator.next
    dsimp only
    rw [hs1, hsw, hread]
    simp [underrun_phase, hrec]
  · intro t
    unfold fade_in_weight
    ring
  · unfold fade_out_weight
    norm_num
  · unfold fade_out_weight
    rw [mul_one, Real.cos_pi]
    norm_num
  · unfold fade_out_weight
    rw [show Real.pi * (1 / 4) = Real.pi / 4 by ring, Real.cos_pi_div_four]
    intro hcontra
    have hsqrt : Real.sqrt 2 = 1 := by nlinarith
    have : (2 : ℝ) = 1 := by
      have := Real.sq_sqrt (by norm_num : (0 : ℝ) ≤ 2)
      rw [hsqrt] at this
      nlinarith
    norm_num at this
  · exact crossfade_equal_power_counterexample.1

theorem crossfade_raised_cosine_witness : fade_out_weight 0 = 1 :=
  (crossfade_raised_cosine env_empty fft_crossfade_ex rfl rfl (by decide) (by decide)
    (by decide) (by simp [fft_crossfade_ex]) rfl).2.2.1

/-! ## C1: underrun declaration, declick fade, and indefinite playback -/

theorem core_eq_trans {a b c : FftNoiseGenerator} (h1 : core_eq a b) (h2 : core_eq b c) :
    core_eq a c := by
  obtain ⟨e1, e2, e3, e4, e5, e6, e7, e8, e9⟩ := h1
  obtain ⟨f1, f2, f3, f4, f5, f6, f7, f8, f9⟩ := h2
  exact ⟨e1.trans f1, e2.trans f2, e3.trans f3, e4.trans f4, e5.trans f5, e6.trans f6,
    e7.trans f7, e8.trans f8, e9.trans f9⟩

theorem trigger_poll_core (env : WorkerEnv) (s : FftNoiseGenerator)
    (hresp : no_response env) :
    core_eq (poll_phase env (trigger_phase env s)) s := by
  have h1 : core_eq (trigger_phase env s) s := by
    unfold trigger_phase core_eq
    by_cases hc : s.next_buffer_ready = false ∧ s.worker_requested = false ∧
        s.size / 2 ≤ s.cursor
    · rw [if_pos hc]
      cases henv : env.send_ok <;> simp
    · rw [if_neg hc]
      simp
  have h2 : core_eq (poll_phase env (trigger_phase env s)) (trigger_phase env s) := by
    unfold poll_phase core_eq
    by_cases hreq : (trigger_phase env s).worker_requested = true
    · rw [if_pos hreq]
      cases hrecv : env.recv with
      | ok buf => exact absurd hrecv (hresp buf)
      | empty => simp
      | disconnected => simp
    · rw [if_neg hreq]
      simp
  exact core_eq_trans h2 h1

theorem switch_phase_not_ready (s1 : FftNoiseGenerator) (h : s1.next_buffer_ready = false) :
    (s1.buffer.length ≤ s1.cursor →
      switch_phase s1 =
        { s1 with cursor := 0, underrun_recovering := true, underrun_fade_pos := 0 }) ∧
    (s1.cursor < s1.buffer.length → switch_phase s1 = s1) := by
  constructor
  · intro hend
    unfold switch_phase
    rw [if_pos hend, if_neg (by rw [h]; simp)]
  · intro hlt
    unfold switch_phase
    rw [if_neg (by omega)]

theorem read_sample_not_ready (cl : ℕ) (s2 : FftNoiseGenerator)
    (h : s2.next_buffer_ready = false) (hcur : s2.cursor < s2.buffer.length) :
    read_sample cl s2 = some (s2.buffer.getD s2.cursor 0) := by
  unfold read_sample
  rw [if_neg (by rw [h]; simp), List.get?_eq_getElem?, List.getElem?_eq_getElem hcur,
    List.getD_eq_getElem?_getD, List.getElem?_eq_getElem hcur]
  rfl

theorem underrun_phase_fade (s2 : FftNoiseGenerator) (x : ℝ)
    (hrec : s2.underrun_recovering = true)
    (hpos : s2.underrun_fade_pos < UNDERRUN_FADE_SAMPLES)
    (hlen : 1 ≤ s2.buffer.length) :
    underrun_phase s2 x = some
      (s2.buffer.getD
          (min (s2.buffer.length - UNDERRUN_FADE_SAMPLES + s2.underrun_fade_pos)
            (s2.buffer.length - 1)) 0 * (1 - underrun_fade_in s2.underrun_fade_pos) +
        x * underrun_fade_in s2.underrun_fade_pos,
        { s2 with underrun_fade_pos := s2.underrun_fade_pos + 1 }) := by
  unfold underrun_phase
  rw [if_pos hrec, if_pos hpos]
  dsimp only
  have htidx :
      min (s2.buffer.length - UNDERRUN_FADE_SAMPLES + s2.underrun_fade_pos)
        (s2.buffer.length - 1) < s2.buffer.length := by omega
  have hgd : s2.buffer.getD
      (min (s2.buffer.length - UNDERRUN_FADE_SAMPLES + s2.underrun_fade_pos)
        (s2.buffer.length - 1)) 0 =
      s2.buffer.get ⟨_, htidx⟩ := by
    rw [List.getD_eq_getElem?_getD, List.getElem?_eq_getElem htidx]
    rfl
  rw [List.get?_eq_getElem?, List.getElem?_eq_getElem htidx]
  dsimp only
  rw [hgd]
  rfl

theorem underrun_phase_total (s2 : FftNoiseGenerator) (x : ℝ)
    (hlen : 1 ≤ s2.buffer.length) :
    ∃ y s3, underrun_phase s2 x = some (y, s3) ∧
      s3.buffer = s2.buffer ∧ s3.cursor = s2.cursor ∧
      s3.next_buffer_ready = s2.next_buffer_ready ∧
      s3.lp_filters = s2.lp_filters ∧ s3.hp_filters = s2.hp_filters ∧
      s3.renorm = s2.renorm ∧ s3.base_amplitude = s2.base_amplitude := by
  by_cases h1 : s2.underrun_recovering = true
  · by_cases h2 : s2.underrun_fade_pos < UNDERRUN_FADE_SAMPLES
    · rw [underrun_phase_fade s2 x h1 h2 hlen]
      exact ⟨_, _, rfl, rfl, rfl, rfl, rfl, rfl, rfl, rfl⟩
    · unfold underrun_phase
      rw [if_pos h1, if_neg h2]
      exact ⟨_, _, rfl, rfl, rfl, rfl, rfl, rfl, rfl, rfl⟩
  · unfold underrun_phase
    rw [if_neg h1]
    exact ⟨_, _, rfl, rfl, rfl, rfl, rfl, rfl, rfl, rfl⟩

theorem next_step_no_response (env : WorkerEnv) (s : FftNoiseGenerator)
    (hresp : no_response env) (hinv : UnderrunInv s) :
    ∃ y s2, FftNoiseGenerator.next env s = some (y, s2) ∧ UnderrunInv s2 ∧
      s2.buffer = s.buffer := by
  obtain ⟨hlen1, hcur1, hready1⟩ := hinv
  obtain ⟨hb, hcu, hr, hur, hfp, hlp, hhp, hrn, ha⟩ := trigger_poll_core env s hresp
  set s1 := poll_phase env (trigger_phase env s) with hs1def
  have hready2 : s1.next_buffer_ready = false := by rw [hr, hready1]
  by_cases hend : s1.buffer.length ≤ s1.cursor
  · set sU : FftNoiseGenerator :=
      { s1 with cursor := 0, underrun_recovering := true, underrun_fade_pos := 0 } with hsU
    have hswU : switch_phase s1 = sU := (switch_phase_not_ready s1 hready2).1 hend
    have hUb : sU.buffer = s1.buffer := rfl
    have hUr : sU.next_buffer_ready = s1.next_buffer_ready := rfl
    have hUc : sU.cursor = 0 := rfl
    have hcur2 : sU.cursor < sU.buffer.length := by
      rw [hUc, hUb, hb]; omega
    have hread := read_sample_not_ready s.crossfade_len sU
      (by rw [hUr]; exact hready2) hcur2
    obtain ⟨y, s3, hu, h3b, h3c, h3r, _, _, _, _⟩ :=
      underrun_phase_total sU (sU.buffer.getD sU.cursor 0) (by rw [hUb, hb]; omega)
    unfold FftNoiseGenerator.next
    dsimp only
    rw [hswU, hread]
    dsimp only
    rw [hu]
    dsimp only
    refine ⟨_, _, rfl, ⟨?_, ?_, ?_⟩, ?_⟩
    · show 1 ≤ s3.buffer.length
      rw [h3b, hUb, hb]; omega
    · show s3.cursor + 1 ≤ s3.buffer.length
      rw [h3c, h3b, hUc, hUb, hb]; omega
    · show s3.next_buffer_ready = false
      rw [h3r, hUr]; exact hready2
    · show s3.buffer = s.buffer
      rw [h3b, hUb, hb]
  · have hsw : switch_phase s1 = s1 := (switch_phase_not_ready s1 hready2).2 (by omega)
    have hread := read_sample_not_ready s.crossfade_len s1 hready2 (by omega)
    obtain ⟨y, s3, hu, h3b, h3c, h3r, _, _, _, _⟩ :=
      underrun_phase_total s1 (s1.buffer.getD s1.cursor 0) (by omega)
    unfold FftNoiseGenerator.next
    dsimp only
    rw [hsw, hread]
    dsimp only
    rw [hu]
    dsimp only
    refine ⟨_, _, rfl, ⟨?_, ?_, ?_⟩, ?_⟩
    · show 1 ≤ s3.buffer.length
      rw [h3b]; omega
    · show s3.cursor + 1 ≤ s3.buffer.length
      rw [h3c, h3b]; omega
    · show s3.next_buffer_ready = false
      rw [h3r]; exact hready2
    · show s3.buffer = s.buffer
      rw [h3b]; exact hb

theorem iter_next_no_response (envs : ℕ → WorkerEnv) (n : ℕ) (s : FftNoiseGenerator)
    (henvs : ∀ k, no_response (envs k)) (hinv : UnderrunInv s) :
    (iter_next envs n s).isSome := by
  induction n generalizing envs s with
  | zero => simp [iter_next]
  | succ n ih =>
    obtain ⟨y, s2, hstep, hinv2, _⟩ := next_step_no_response (envs 0) s (henvs 0) hinv
    unfold iter_next
    rw [hstep]
    exact ih (fun k => envs (k + 1)) s2 (fun k => henvs (k + 1)) hinv2

/-- C1: from any state with a nonempty active buffer, an in-range cursor and
no ready replacement, while the worker never delivers a buffer: `next` always
returns a sample and preserves the invariant; at the moment the cursor
reaches the end of the active buffer it declares an underrun — the cursor is
reset to the buffer start (the returned sample is read there and the cursor
ends at 1) and the returned sample blends the tail of the just-finished
buffer into the restarted head with the fixed-length fade; each further call
within the `UNDERRUN_FADE_SAMPLES`-long window keeps blending tail into head
at the advancing fade position; and iterating `next` any number of times
under any stream of response-less environments never panics. -/
theorem fft_underrun_recovery (env : WorkerEnv) (s : FftNoiseGenerator)
    (hresp : no_response env) (hinv : UnderrunInv s) :
    (∃ y s2, FftNoiseGenerator.next env s = some (y, s2) ∧ UnderrunInv s2 ∧
      s2.buffer = s.buffer) ∧
    (s.cursor = s.buffer.length →
      ∃ s2, FftNoiseGenerator.next env s = some
        ((post_chain s.lp_filters s.hp_filters s.renorm s.base_amplitude
          (s.buffer.getD (min (s.buffer.length - UNDERRUN_FADE_SAMPLES)
              (s.buffer.length - 1)) 0 * (1 - underrun_fade_in 0) +
            s.buffer.getD 0 0 * underrun_fade_in 0)).1, s2) ∧
        s2.cursor = 1 ∧ s2.underrun_recovering = true ∧ s2.underrun_fade_pos = 1 ∧
        s2.buffer = s.buffer) ∧
    (s.underrun_recovering = true → s.underrun_fade_pos < UNDERRUN_FADE_SAMPLES →
      s.cursor < s.buffer.length →
      ∃ s2, FftNoiseGenerator.next env s = some
        ((post_chain s.lp_filters s.hp_filters s.renorm s.base_amplitude
          (s.buffer.getD (min (s.buffer.length - UNDERRUN_FADE_SAMPLES + s.underrun_fade_pos)
              (s.buffer.length - 1)) 0 * (1 - underrun_fade_in s.underrun_fade_pos) +
            s.buffer.getD s.cursor 0 * underrun_fade_in s.underrun_fade_pos)).1, s2) ∧
        s2.underrun_fade_pos = s.underrun_fade_pos + 1) ∧
    (∀ envs : ℕ → WorkerEnv, (∀ k, no_response (envs k)) →
      ∀ n, (iter_next envs n s).isSome) := by
  refine ⟨next_step_no_response env s hresp hinv, ?_, ?_,
    fun envs henvs n => iter_next_no_response envs n s henvs hinv⟩
  · -- underrun declaration
    intro hcend
    obtain ⟨hlen1, hcur1, hready1⟩ := hinv
    obtain ⟨hb, hcu, hr, hur, hfp, hlp, hhp, hrn, ha⟩ := trigger_poll_core env s hresp
    set s1 := poll_phase env (trigger_phase env s) with hs1def
    have hready2 : s1.next_buffer_ready = false := by rw [hr, hready1]
    have hend : s1.buffer.length ≤ s1.cursor := by rw [hb, hcu]; omega
    set sU : FftNoiseGenerator :=
      { s1 with cursor := 0, underrun_recovering := true, underrun_fade_pos := 0 } with hsU
    have hswU : switch_phase s1 = sU := (switch_phase_not_ready s1 hready2).1 hend
    have hUb : sU.buffer = s.buffer := hb
    have hUr : sU.next_buffer_ready = false := hready2
    have hUc : sU.cursor = 0 := rfl
    have hUp : sU.underrun_fade_pos = 0 := rfl
    have hUlp : sU.lp_filters = s.lp_filters := hlp
    have hUhp : sU.hp_filters = s.hp_filters := hhp
    have hUrn : sU.renorm = s.renorm := hrn
    have hUa : sU.base_amplitude = s.base_amplitude := ha
    have hcur2 : sU.cursor < sU.buffer.length := by rw [hUc, hUb]; omega
    have hread := read_sample_not_ready s.crossfade_len sU hUr hcur2
    have hurec : sU.underrun_recovering = true := rfl
    have hupos : sU.underrun_fade_pos < UNDERRUN_FADE_SAMPLES := by
      rw [hUp]
      norm_num [UNDERRUN_FADE_SAMPLES]
    have hu := underrun_phase_fade sU (sU.buffer.getD sU.cursor 0) hurec hupos
      (by rw [hUb]; omega)
    unfold FftNoiseGenerator.next
    dsimp only
    rw [hswU, hread]
    dsimp only
    rw [hu]
    dsimp only
    rw [hUlp, hUhp, hUrn, hUa, hUb]
    simp only [Nat.add_zero, Nat.zero_add]
    exact ⟨_, rfl, rfl, rfl, rfl, rfl⟩
  · -- recovery fade continuation
    intro hrec hpos hcur
    obtain ⟨hlen1, hcur1, hready1⟩ := hinv
    obtain ⟨hb, hcu, hr, hur, hfp, hlp, hhp, hrn, ha⟩ := trigger_poll_core env s hresp
    set s1 := poll_phase env (trigger_phase env s) with hs1def
    have hready2 : s1.next_buffer_ready = false := by rw [hr, hready1]
    have hlt : s1.cursor < s1.buffer.length := by rw [hb, hcu]; omega
    have hsw : switch_phase s1 = s1 := (switch_phase_not_ready s1 hready2).2 hlt
    have hread := read_sample_not_ready s.crossfade_len s1 hready2 hlt
    have h1rec : s1.underrun_recovering = true := by rw [hur]; exact hrec
    have h1pos : s1.underrun_fade_pos < UNDERRUN_FADE_SAMPLES := by rw [hfp]; exact hpos
    have hu := underrun_phase_fade s1 (s1.buffer.getD s1.cursor 0) h1rec h1pos
      (by rw [hb]; omega)
    unfold FftNoiseGenerator.next
    dsimp only
    rw [hsw, hread]
    dsimp only
    rw [hu]
    dsimp only
    rw [hlp, hhp, hrn, ha, hb, hcu, hfp]
    exact ⟨_, rfl, rfl⟩

theorem fft_underrun_recovery_witness :
    ∃ y s2, FftNoiseGenerator.next env_empty fft_underrun_ex = some (y, s2) ∧
      UnderrunInv s2 ∧ s2.buffer = fft_underrun_ex.buffer :=
  (fft_underrun_recovery env_empty fft_underrun_ex
    (fun buf h => RecvResult.noConfusion h) ⟨by decide, by decide, rfl⟩).1

/-! ## C10: out-of-bounds read after a short-clip buffer swap -/

theorem small_shape_next (s : FftNoiseGenerator) (c : ℕ) (hs : small_shape s c)
    (hc : c < 8) :
    ∃ y s2, FftNoiseGenerator.next env_empty s = some (y, s2) ∧ small_shape s2 (c + 1) := by
  obtain ⟨hb, hst, hr, hcu, hsz, hwr, hur⟩ := hs
  have ht : trigger_phase env_empty s = s := by
    unfold trigger_phase
    rw [if_neg (by rw [hr]; simp)]
  have hpp : poll_phase env_empty s = s := by
    unfold poll_phase
    rw [if_neg (by rw [hwr]; simp)]
  have hsw : switch_phase s = s := by
    unfold switch_phase
    rw [if_neg (by omega)]
  have hcur : s.cursor < s.buffer.length := by omega
  have hget : s.buffer.get? s.cursor = some (s.buffer.getD s.cursor 0) := by
    rw [List.get?_eq_getElem?, List.getElem?_eq_getElem hcur, List.getD_eq_getElem?_getD,
      List.getElem?_eq_getElem hcur]
    rfl
  have hcl : s.crossfade_len = 8 := by
    unfold FftNoiseGenerator.crossfade_len
    rw [hb]
    decide
  have hread : ∃ v, read_sample s.crossfade_len s = some v := by
    unfold read_sample
    rw [if_pos hr, if_pos ⟨by omega, by omega, List.length_pos.mp (by omega)⟩, hget]
    exact ⟨_, rfl⟩
  obtain ⟨v, hread⟩ := hread
  have hu : underrun_phase s v = some (v, s) := by
    unfold underrun_phase
    rw [if_neg (by rw [hur]; simp)]
  unfold FftNoiseGenerator.next
  dsimp only
  rw [ht, hpp, hsw, hread]
  dsimp only
  rw [hu]
  dsimp only
  refine ⟨_, _, rfl, ?_, ?_, ?_, ?_, ?_, ?_, ?_⟩
  · show s.buffer.length = 8
    exact hb
  · show s.next_buffer_storage.length = 8
    exact hst
  · show s.next_buffer_ready = true
    exact hr
  · show s.cursor + 1 = c + 1
    omega
  · show s.size = 8
    exact hsz
  · show s.worker_requested = false
    exact hwr
  · show s.underrun_recovering = false
    exact hur

theorem small_shape_end (s : FftNoiseGenerator) (hs : small_shape s 8) :
    (switch_phase s).cursor = (switch_phase s).buffer.length ∧
    FftNoiseGenerator.next env_empty s = none := by
  obtain ⟨hb, hst, hr, hcu, hsz, hwr, hur⟩ := hs
  have hcl : s.crossfade_len = 8 := by
    unfold FftNoiseGenerator.crossfade_len
    rw [hb]
    decide
  have hswc : switch_phase s =
      { s with buffer := s.next_buffer_storage, next_buffer_storage := s.buffer,
               cursor := min s.crossfade_len s.next_buffer_storage.length,
               next_buffer_ready := false, underrun_recovering := false,
               underrun_fade_pos := 0 } := by
    unfold switch_phase
    rw [if_pos (by omega), if_pos hr]
  have ht : trigger_phase env_empty s = s := by
    unfold trigger_phase
    rw [if_neg (by rw [hr]; simp)]
  have hpp : poll_phase env_empty s = s := by
    unfold poll_phase
    rw [if_neg (by rw [hwr]; simp)]
  have hread : read_sample s.crossfade_len (switch_phase s) = none := by
    unfold read_sample
    rw [if_neg (by rw [hswc]; simp)]
    rw [List.get?_eq_getElem?]
    apply List.getElem?_eq_none
    rw [hswc]
    show s.next_buffer_storage.length ≤ min s.crossfade_len s.next_buffer_storage.length
    omega
  constructor
  · rw [hswc]
    show min s.crossfade_len s.next_buffer_storage.length = s.next_buffer_storage.length
    omega
  · unfold FftNoiseGenerator.next
    dsimp only
    rw [ht, hpp, hread]

/-- C10 fails on the code: for a short-clip generator whose buffers are no
longer than `CROSSFADE_SAMPLES` (size 8 here, reachable for sub-8-sample
requested durations), the first buffer swap sets the cursor to
`min(crossfade length, new buffer length)`, which EQUALS the new buffer's
length, and the very next `buffer[cursor]` read is out of bounds: `next`
panics on the ninth call after construction. -/
theorem fft_short_clip_out_of_bounds :
    (∀ s8, small_shape s8 8 →
      (switch_phase s8).cursor = (switch_phase s8).buffer.length ∧
      FftNoiseGenerator.next env_empty s8 = none) ∧
    (∀ s0, small_shape s0 0 → iter_next (fun _ => env_empty) 9 s0 = none) := by
  have aux : ∀ (k c : ℕ) s, c + k = 8 → small_shape s c →
      iter_next (fun _ => env_empty) (k + 1) s = none := by
    intro k
    induction k with
    | zero =>
      intro c s hck hs
      have hend := (small_shape_end s (by rwa [show c = 8 by omega] at hs)).2
      unfold iter_next
      rw [hend]
    | succ k ih =>
      intro c s hck hs
      obtain ⟨y, s2, hstep, hs2⟩ := small_shape_next s c hs (by omega)
      unfold iter_next
      rw [hstep]
      exact ih (c + 1) s2 (by omega) hs2
  exact ⟨fun s8 hs => small_shape_end s8 hs, fun s0 hs0 => aux 8 0 s0 rfl hs0⟩

theorem fft_short_clip_out_of_bounds_witness :
    iter_next (fun _ => env_empty) 9
      (fft_small (List.replicate 8 0) (List.replicate 8 0) 0) = none :=
  fft_short_clip_out_of_bounds.2 _
    ⟨by simp [fft_small], by simp [fft_small], rfl, rfl, rfl, rfl, rfl⟩

/-! ## C3/C5: the overlap-add invariant and reconstruction -/

theorem BLOCK_SIZE_eq : BLOCK_SIZE = 2048 := rfl

theorem HOP_SIZE_eq : HOP_SIZE = 1024 := rfl

theorem ACC_SIZE_eq : ACC_SIZE = 4096 := rfl

theorem wsum_zero (m : ℕ) : wsum 0 m = 0 := by
  simp [wsum]

theorem asum_zero (filt : ℕ → (ℕ → ℝ) → ℕ → ℝ) (f : ℕ → ℝ) (m : ℕ) :
    asum filt f 0 m = 0 := by
  simp [asum]

theorem ola_inv_init (filtL filtR : ℕ → (ℕ → ℝ) → ℕ → ℝ) (f : ℕ → ℝ) :
    OlaInv filtL filtR f OlaState.init 0 0 := by
  refine ⟨by omega, by rw [HOP_SIZE_eq]; omega, rfl, rfl, rfl, rfl, rfl, rfl, rfl, ?_, ?_⟩
  · intro k hk
    simp [OlaState.init] at hk
  · intro m _ _
    exact ⟨wsum_zero m, asum_zero filtL f m, asum_zero filtR f m⟩

theorem fill_input_spec (f : ℕ → ℝ) : ∀ (n : ℕ) (s : OlaState),
    s.input_write_pos = s.pulled % BLOCK_SIZE →
    (∀ k, k < s.pulled → s.pulled ≤ k + BLOCK_SIZE →
      s.input_ring (k % BLOCK_SIZE) = f k) →
    (fill_input f n s).pulled = s.pulled + n ∧
    (fill_input f n s).input_samples_buffered = s.input_samples_buffered + n ∧
    (fill_input f n s).input_write_pos = (s.pulled + n) % BLOCK_SIZE ∧
    (∀ k, k < s.pulled + n → s.pulled + n ≤ k + BLOCK_SIZE →
      (fill_input f n s).input_ring (k % BLOCK_SIZE) = f k) ∧
    (fill_input f n s).out_acc_l = s.out_acc_l ∧
    (fill_input f n s).out_acc_r = s.out_acc_r ∧
    (fill_input f n s).win_acc = s.win_acc ∧
    (fill_input f n s).acc_read_pos = s.acc_read_pos ∧
    (fill_input f n s).acc_write_pos = s.acc_write_pos ∧
    (fill_input f n s).samples_ready = s.samples_ready ∧
    (fill_input f n s).absolute_block_start = s.absolute_block_start := by
  intro n
  induction n with
  | zero =>
    intro s hw hring
    refine ⟨by simp [fill_input], by simp [fill_input], ?_, ?_, rfl, rfl, rfl, rfl, rfl,
      rfl, rfl⟩
    · simp [fill_input, hw]
    · simpa [fill_input] using hring
  | succ n ih =>
    intro s hw hring
    have hw2 : (push_input f s).input_write_pos = (push_input f s).pulled % BLOCK_SIZE := by
      simp only [push_input]
      rw [hw]
      rw [BLOCK_SIZE_eq]
      omega
    have hring2 : ∀ k, k < (push_input f s).pulled →
        (push_input f s).pulled ≤ k + BLOCK_SIZE →
        (push_input f s).input_ring (k % BLOCK_SIZE) = f k := by
      intro k hk1 hk2
      simp only [push_input] at hk1 hk2 ⊢
      by_cases hke : k = s.pulled
      · subst hke
        rw [hw, Function.update_same]
      · have hne : k % BLOCK_SIZE ≠ s.input_write_pos := by
          rw [hw, BLOCK_SIZE_eq] at *
          omega
        rw [Function.update_noteq hne]
        exact hring k (by omega) (by omega)
    have hstep : fill_input f (n + 1) s = fill_input f n (push_input f s) := rfl
    obtain ⟨c1, c2, c3, c4, c5, c6, c7, c8, c9, c10, c11⟩ := ih (push_input f s) hw2 hring2
    have hp1 : (push_input f s).pulled = s.pulled + 1 := rfl
    have hp2 : (push_input f s).input_samples_buffered = s.input_samples_buffered + 1 := rfl
    rw [hstep]
    refine ⟨by rw [c1, hp1]; omega, by rw [c2, hp2]; omega, by rw [c3, hp1]; ring_nf, ?_,
      by rw [c5]; rfl, by rw [c6]; rfl, by rw [c7]; rfl, by rw [c8]; rfl,
      by rw [c9]; rfl, by rw [c10]; rfl, by rw [c11]; rfl⟩
    intro k hk1 hk2
    exact c4 k (by rw [hp1]; omega) (by rw [hp1]; omega)

theorem process_block_spec (filtL filtR : ℕ → (ℕ → ℝ) → ℕ → ℝ) (f : ℕ → ℝ)
    (s : OlaState) (j : ℕ)
    (hinv : OlaInv filtL filtR f s j (j * HOP_SIZE)) :
    OlaInv filtL filtR f
      ({ process_ola_block filtL filtR
          (fill_input f (BLOCK_SIZE - s.input_samples_buffered) s) with
        input_samples_buffered := BLOCK_SIZE - HOP_SIZE }) (j + 1) (j * HOP_SIZE) := by
  obtain ⟨h1, h2, h3, h4, h5, h6, h7, h8, h9, h10, h11⟩ := hinv
  obtain ⟨c1, c2, c3, c4, c5, c6, c7, c8, c9, c10, c11⟩ :=
    fill_input_spec f (BLOCK_SIZE - s.input_samples_buffered) s h9 h10
  set sf := fill_input f (BLOCK_SIZE - s.input_samples_buffered) s with hsf
  have hsum : s.pulled + (BLOCK_SIZE - s.input_samples_buffered) =
      BLOCK_SIZE + j * HOP_SIZE := by
    rw [h7, h8]
    unfold pulled_at buffered_at
    rcases j with _ | j2 <;> simp <;> rw [BLOCK_SIZE_eq, HOP_SIZE_eq] <;> omega
  have hpull : sf.pulled = BLOCK_SIZE + j * HOP_SIZE := by rw [c1]; exact hsum
  have hbufle : s.input_samples_buffered ≤ BLOCK_SIZE := by
    rw [h8]
    unfold buffered_at
    rcases j with _ | j2 <;> simp
  have hbuff : sf.input_samples_buffered = BLOCK_SIZE := by
    rw [c2, h8]
    unfold buffered_at
    rcases j with _ | j2 <;> simp <;> rw [BLOCK_SIZE_eq, HOP_SIZE_eq] <;> omega
  have hwp : sf.input_write_pos = (BLOCK_SIZE + j * HOP_SIZE) % BLOCK_SIZE := by
    rw [c3, hsum]
  have hblk : (fun i => sf.input_ring
      ((sf.input_write_pos + BLOCK_SIZE - sf.input_samples_buffered + i) % BLOCK_SIZE)) =
      block_input f j := by
    funext i
    have hidx : (sf.input_write_pos + BLOCK_SIZE - sf.input_samples_buffered + i) %
        BLOCK_SIZE = (j * HOP_SIZE + i % BLOCK_SIZE) % BLOCK_SIZE := by
      rw [hwp, hbuff, BLOCK_SIZE_eq, HOP_SIZE_eq]
      omega
    rw [hidx]
    have hc4 := c4 (j * HOP_SIZE + i % BLOCK_SIZE)
      (by rw [hpull, BLOCK_SIZE_eq, HOP_SIZE_eq] at *; omega)
      (by rw [hpull, BLOCK_SIZE_eq, HOP_SIZE_eq] at *; omega)
    unfold block_input
    exact hc4
  set sp := process_ola_block filtL filtR sf with hsp
  have hwinacc : ∀ p, sp.win_acc p =
      if (p + ACC_SIZE - sf.acc_write_pos) % ACC_SIZE < BLOCK_SIZE then
        sf.win_acc p + hann_window ((p + ACC_SIZE - sf.acc_write_pos) % ACC_SIZE)
      else sf.win_acc p := fun p => rfl
  have haccl : ∀ p, sp.out_acc_l p =
      if (p + ACC_SIZE - sf.acc_write_pos) % ACC_SIZE < BLOCK_SIZE then
        sf.out_acc_l p +
          filtL sf.absolute_block_start
            (fun i => sf.input_ring
              ((sf.input_write_pos + BLOCK_SIZE - sf.input_samples_buffered + i) %
                BLOCK_SIZE))
            ((p + ACC_SIZE - sf.acc_write_pos) % ACC_SIZE) *
          hann_window ((p + ACC_SIZE - sf.acc_write_pos) % ACC_SIZE)
      else sf.out_acc_l p := fun p => rfl
  have haccr : ∀ p, sp.out_acc_r p =
      if (p + ACC_SIZE - sf.acc_write_pos) % ACC_SIZE < BLOCK_SIZE then
        sf.out_acc_r p +
          filtR sf.absolute_block_start
            (fun i => sf.input_ring
              ((sf.input_write_pos + BLOCK_SIZE - sf.input_samples_buffered + i) %
                BLOCK_SIZE))
            ((p + ACC_SIZE - sf.acc_write_pos) % ACC_SIZE) *
          hann_window ((p + ACC_SIZE - sf.acc_write_pos) % ACC_SIZE)
      else sf.out_acc_r p := fun p => rfl
  have hspw : sp.acc_write_pos = (sf.acc_write_pos + HOP_SIZE) % ACC_SIZE := rfl
  have hspr : sp.acc_read_pos = sf.acc_read_pos := rfl
  have hsps : sp.samples_ready = sf.samples_ready + HOP_SIZE := rfl
  have hspa : sp.absolute_block_start = sf.absolute_block_start + HOP_SIZE := rfl
  have hsppull : sp.pulled = sf.pulled := rfl
  have hspiw : sp.input_write_pos = sf.input_write_pos := rfl
  have hspring : sp.input_ring = sf.input_ring := rfl
  refine ⟨by rw [HOP_SIZE_eq]; omega, by rw [HOP_SIZE_eq]; omega, ?_, ?_, ?_, ?_, ?_, ?_,
    ?_, ?_, ?_⟩
  · show sp.samples_ready = (j + 1) * HOP_SIZE - j * HOP_SIZE
    rw [hsps, c10, h3, HOP_SIZE_eq]
    omega
  · show sp.acc_read_pos = j * HOP_SIZE % ACC_SIZE
    rw [hspr, c8, h4]
  · show sp.acc_write_pos = (j + 1) * HOP_SIZE % ACC_SIZE
    rw [hspw, c9, h5, HOP_SIZE_eq, ACC_SIZE_eq]
    omega
  · show sp.absolute_block_start = (j + 1) * HOP_SIZE
    rw [hspa, c11, h6, HOP_SIZE_eq]
    omega
  · show sp.pulled = pulled_at (j + 1)
    rw [hsppull, hpull]
    unfold pulled_at
    simp
  · show BLOCK_SIZE - HOP_SIZE = buffered_at (j + 1)
    unfold buffered_at
    simp
  · show sp.input_write_pos = sp.pulled % BLOCK_SIZE
    rw [hspiw, hsppull, hwp, hpull]
  · show ∀ k, k < sp.pulled → sp.pulled ≤ k + BLOCK_SIZE →
      sp.input_ring (k % BLOCK_SIZE) = f k
    intro k hk1 hk2
    rw [hspring]
    exact c4 k (by rw [hsppull, c1] at hk1; exact hk1)
      (by rw [hsppull, c1] at hk2; exact hk2)
  · show ∀ m, j * HOP_SIZE ≤ m → m < j * HOP_SIZE + ACC_SIZE →
      sp.win_acc (m % ACC_SIZE) = wsum (j + 1) m ∧
      sp.out_acc_l (m % ACC_SIZE) = asum filtL f (j + 1) m ∧
      sp.out_acc_r (m % ACC_SIZE) = asum filtR f (j + 1) m
    intro m hm1 hm2
    have hofs : (m % ACC_SIZE + ACC_SIZE - sf.acc_write_pos) % ACC_SIZE =
        m - j * HOP_SIZE := by
      rw [c9, h5]
      rw [ACC_SIZE_eq, HOP_SIZE_eq] at *
      omega
    obtain ⟨o1, o2, o3⟩ := h11 m hm1 hm2
    have hwcond : (m - j * HOP_SIZE < BLOCK_SIZE) ↔ in_win j m := by
      unfold in_win
      rw [BLOCK_SIZE_eq, HOP_SIZE_eq] at *
      omega
    refine ⟨?_, ?_, ?_⟩
    · rw [hwinacc, hofs]
      rw [wsum, Finset.sum_range_succ, ← wsum]
      by_cases hw : in_win j m
      · rw [if_pos (hwcond.mpr hw), if_pos hw, c7, o1]
      · rw [if_neg (fun hc => hw (hwcond.mp hc)), if_neg hw, c7, o1]
        ring
    · rw [haccl, hofs]
      rw [asum, Finset.sum_range_succ, ← asum]
      simp only [hblk]
      rw [c11, h6]
      by_cases hw : in_win j m
      · rw [if_pos (hwcond.mpr hw), if_pos hw, c5, o2]
      · rw [if_neg (fun hc => hw (hwcond.mp hc)), if_neg hw, c5, o2]
        ring
    · rw [haccr, hofs]
      rw [asum, Finset.sum_range_succ, ← asum]
      simp only [hblk]
      rw [c11, h6]
      by_cases hw : in_win j m
      · rw [if_pos (hwcond.mpr hw), if_pos hw, c6, o3]
      · rw [if_neg (fun hc => hw (hwcond.mp hc)), if_neg hw, c6, o3]
        ring

theorem emit_frame_spec (filtL filtR : ℕ → (ℕ → ℝ) → ℕ → ℝ) (f : ℕ → ℝ)
    (s : OlaState) (j e : ℕ) (hinv : OlaInv filtL filtR f s j e)
    (hlt : e < j * HOP_SIZE) :
    (emit_frame s).1 =
      (if (1e-8 : ℝ) < wsum j e then asum filtL f j e / wsum j e else 0,
        if (1e-8 : ℝ) < wsum j e then asum filtR f j e / wsum j e else 0) ∧
    OlaInv filtL filtR f (emit_frame s).2 j (e + 1) := by
  obtain ⟨h1, h2, h3, h4, h5, h6, h7, h8, h9, h10, h11⟩ := hinv
  obtain ⟨o1, o2, o3⟩ := h11 e (le_refl e) (by rw [ACC_SIZE_eq]; omega)
  constructor
  · unfold emit_frame
    dsimp only
    rw [h4, o1, o2, o3]
  · have hzero : ∀ filt : ℕ → (ℕ → ℝ) → ℕ → ℝ,
        asum filt f j (e + ACC_SIZE) = 0 := by
      intro filt
      unfold asum
      refine Finset.sum_eq_zero ?_
      intro k hk
      have hk2 := Finset.mem_range.mp hk
      rw [if_neg ?_]
      unfold in_win
      rw [ACC_SIZE_eq, HOP_SIZE_eq, BLOCK_SIZE_eq] at *
      omega
    have hwzero : wsum j (e + ACC_SIZE) = 0 := by
      unfold wsum
      refine Finset.sum_eq_zero ?_
      intro k hk
      have hk2 := Finset.mem_range.mp hk
      rw [if_neg ?_]
      unfold in_win
      rw [ACC_SIZE_eq, HOP_SIZE_eq, BLOCK_SIZE_eq] at *
      omega
    refine ⟨by omega, by rw [HOP_SIZE_eq] at *; omega, ?_, ?_, ?_, ?_, ?_, ?_, ?_, ?_, ?_⟩
    · show s.samples_ready - 1 = j * HOP_SIZE - (e + 1)
      rw [h3]
      omega
    · show (s.acc_read_pos + 1) % ACC_SIZE = (e + 1) % ACC_SIZE
      rw [h4, ACC_SIZE_eq]
      omega
    · exact h5
    · exact h6
    · exact h7
    · exact h8
    · exact h9
    · exact h10
    · intro m hm1 hm2
      have ew : (emit_frame s).2.win_acc = Function.update s.win_acc s.acc_read_pos 0 := rfl
      have el : (emit_frame s).2.out_acc_l =
        Function.update s.out_acc_l s.acc_read_pos 0 := rfl
      have er : (emit_frame s).2.out_acc_r =
        Function.update s.out_acc_r s.acc_read_pos 0 := rfl
      rw [ew, el, er, h4]
      by_cases hme : m = e + ACC_SIZE
      · subst hme
        have hmod : (e + ACC_SIZE) % ACC_SIZE = e % ACC_SIZE := by
          rw [ACC_SIZE_eq]
          omega
        rw [hmod, Function.update_same, Function.update_same, Function.update_same,
          hwzero, hzero filtL, hzero filtR]
        exact ⟨rfl, rfl, rfl⟩
      · have hmod : m % ACC_SIZE ≠ e % ACC_SIZE := by
          rw [ACC_SIZE_eq] at hm2 hme ⊢
          omega
        obtain ⟨p1, p2, p3⟩ := h11 m (by omega) (by omega)
        rw [Function.update_noteq hmod, Function.update_noteq hmod,
          Function.update_noteq hmod]
        exact ⟨p1, p2, p3⟩

theorem generate_frames_master (filtL filtR : ℕ → (ℕ → ℝ) → ℕ → ℝ) (f : ℕ → ℝ) :
    ∀ (n : ℕ) (s : OlaState) (j e : ℕ), OlaInv filtL filtR f s j e →
    (∃ jj, OlaInv filtL filtR f (generate_frames filtL filtR f n s).2 jj (e + n)) ∧
    (∀ m, m < n → (generate_frames filtL filtR f n s).1.get? m =
      some (emitted_value filtL f (e + m), emitted_value filtR f (e + m))) := by
  intro n
  induction n with
  | zero =>
    intro s j e hinv
    exact ⟨⟨j, by simpa [generate_frames] using hinv⟩, fun m hm => absurd hm (by omega)⟩
  | succ n ih =>
    intro s j e hinv
    have h1 := hinv.1
    have h3 := hinv.2.2.1
    by_cases hready : 0 < s.samples_ready
    · have hlt : e < j * HOP_SIZE := by omega
      have hj : j = e / HOP_SIZE + 1 := by
        have h2 := hinv.2.1
        rw [HOP_SIZE_eq] at *
        omega
      obtain ⟨hval, hinv2⟩ := emit_frame_spec filtL filtR f s j e hinv hlt
      have hgen : generate_frames filtL filtR f (n + 1) s =
          ((emit_frame s).1 :: (generate_frames filtL filtR f n (emit_frame s).2).1,
            (generate_frames filtL filtR f n (emit_frame s).2).2) := by
        simp only [generate_frames]
        rw [if_pos hready]
      obtain ⟨⟨jj, hinvf⟩, hvals⟩ := ih (emit_frame s).2 j (e + 1) hinv2
      constructor
      · refine ⟨jj, ?_⟩
        rw [hgen, show e + (n + 1) = e + 1 + n from by omega]
        exact hinvf
      · intro m hm
        rw [hgen]
        cases m with
        | zero =>
          rw [List.get?_cons_zero, hval, show e + 0 = e from rfl]
          unfold emitted_value w_total
          rw [← hj]
        | succ m =>
          rw [List.get?_cons_succ]
          have hv := hvals m (by omega)
          rw [show e + 1 + m = e + (m + 1) from by omega] at hv
          exact hv
    · have he : e = j * HOP_SIZE := by omega
      subst he
      have hp := process_block_spec filtL filtR f s j hinv
      obtain ⟨hval, hinv2⟩ := emit_frame_spec filtL filtR f
        ({ process_ola_block filtL filtR
            (fill_input f (BLOCK_SIZE - s.input_samples_buffered) s) with
          input_samples_buffered := BLOCK_SIZE - HOP_SIZE }) (j + 1) (j * HOP_SIZE) hp
        (by rw [HOP_SIZE_eq]; omega)
      have hj : j + 1 = (j * HOP_SIZE) / HOP_SIZE + 1 := by
        rw [HOP_SIZE_eq]
        omega
      have hgen : generate_frames filtL filtR f (n + 1) s =
          ((emit_frame ({ process_ola_block filtL filtR
              (fill_input f (BLOCK_SIZE - s.input_samples_buffered) s) with
            input_samples_buffered := BLOCK_SIZE - HOP_SIZE })).1 ::
            (generate_frames filtL filtR f n (emit_frame ({ process_ola_block filtL filtR
              (fill_input f (BLOCK_SIZE - s.input_samples_buffered) s) with
            input_samples_buffered := BLOCK_SIZE - HOP_SIZE })).2).1,
            (generate_frames filtL filtR f n (emit_frame ({ process_ola_block filtL filtR
              (fill_input f (BLOCK_SIZE - s.input_samples_buffered) s) with
            input_samples_buffered := BLOCK_SIZE - HOP_SIZE })).2).2) := by
        simp only [generate_frames]
        rw [if_neg hready]
      obtain ⟨⟨jj, hinvf⟩, hvals⟩ := ih _ (j + 1) (j * HOP_SIZE + 1) hinv2
      constructor
      · refine ⟨jj, ?_⟩
        rw [hgen, show j * HOP_SIZE + (n + 1) = j * HOP_SIZE + 1 + n from by omega]
        exact hinvf
      · intro m hm
        rw [hgen]
        cases m with
        | zero =>
          rw [List.get?_cons_zero, hval, show j * HOP_SIZE + 0 = j * HOP_SIZE from rfl]
          unfold emitted_value w_total
          rw [← hj]
        | succ m =>
          rw [List.get?_cons_succ]
          have hv := hvals m (by omega)
          rw [show j * HOP_SIZE + 1 + m = j * HOP_SIZE + (m + 1) from by omega] at hv
          exact hv

theorem asum_id (f : ℕ → ℝ) (j m : ℕ) :
    asum id_filter f j m = f m * wsum j m := by
  unfold asum wsum
  rw [Finset.mul_sum]
  refine Finset.sum_congr rfl ?_
  intro k _
  by_cases hw : in_win k m
  · rw [if_pos hw, if_pos hw]
    unfold id_filter block_input
    have hm1 : (m - k * HOP_SIZE) % BLOCK_SIZE = m - k * HOP_SIZE :=
      Nat.mod_eq_of_lt (by unfold in_win at hw; omega)
    have hm2 : k * HOP_SIZE + (m - k * HOP_SIZE) = m := by
      unfold in_win at hw
      omega
    rw [hm1, hm2, mul_comm]
  · rw [if_neg hw, if_neg hw, mul_zero]

/-- C3: with no sweeps configured, `StreamingNoise::generate` reduces to the
identity filtering stage, and the overlap-add reconstruction is exact: every
emitted frame carries the base-noise input sample for that output position on
both channels whenever the accumulated window weight exceeds the `1e-8`
zero-weight threshold, and emits 0 at positions with zero accumulated window
weight.  (Output position `m` corresponds to input sample `m`; the algorithm's
fixed latency is the block of input consumed before the first frame becomes
available.) -/
theorem ola_passthrough (f : ℕ → ℝ) (n m : ℕ) (hmn : m < n) :
    (generate_frames id_filter id_filter f n OlaState.init).1.get? m =
      some (if (1e-8 : ℝ) < w_total m then f m else 0,
        if (1e-8 : ℝ) < w_total m then f m else 0) := by
  obtain ⟨_, hvals⟩ := generate_frames_master id_filter id_filter f n OlaState.init 0 0
    (ola_inv_init id_filter id_filter f)
  have h := hvals m hmn
  rw [show (0 : ℕ) + m = m from by omega] at h
  rw [h]
  have hv : emitted_value id_filter f m = if (1e-8 : ℝ) < w_total m then f m else 0 := by
    unfold emitted_value
    by_cases hw : (1e-8 : ℝ) < w_total m
    · rw [if_pos hw, if_pos hw]
      unfold w_total at *
      rw [asum_id]
      have hne : wsum (m / HOP_SIZE + 1) m ≠ 0 := by
        intro hc
        rw [hc] at hw
        norm_num at hw
      field_simp
    · rw [if_neg hw, if_neg hw]
  rw [hv]

theorem ola_passthrough_witness :
    (generate_frames id_filter id_filter (fun _ => 1) 1 OlaState.init).1.get? 0 =
      some (0, 0) := by
  have h := ola_passthrough (fun _ => 1) 1 0 (by norm_num)
  have hw : w_total 0 = 0 := by
    unfold w_total wsum
    rw [show (0 / HOP_SIZE + 1) = 1 from by rw [HOP_SIZE_eq]]
    rw [Finset.sum_range_one]
    rw [if_pos (by unfold in_win; rw [BLOCK_SIZE_eq]; omega)]
    unfold hann_window
    simp
  rw [hw] at h
  rw [if_neg (by norm_num : ¬(1e-8 : ℝ) < 0)] at h
  exact h

/-- C5: in every state of the generate/process loop at which a new block is
about to be added (all ready frames emitted, `samples_ready = 0`), the ring
slots the incoming block touches for the first time — offsets
`[HOP_SIZE, BLOCK_SIZE)` from the write position, the slots not shared with
the previous block — have window-weight accumulator exactly 0 and both sample
accumulators 0: a slot is always fully drained and cleared before a later
block reuses it.  This holds for arbitrary per-block filtering stages
`filtL`/`filtR`, hence for any sweep configuration. -/
theorem ola_ring_drained (filtL filtR : ℕ → (ℕ → ℝ) → ℕ → ℝ) (f : ℕ → ℝ) (n : ℕ)
    (hready : (generate_frames filtL filtR f n OlaState.init).2.samples_ready = 0) :
    ∀ i, HOP_SIZE ≤ i → i < BLOCK_SIZE →
      (generate_frames filtL filtR f n OlaState.init).2.win_acc
        (((generate_frames filtL filtR f n OlaState.init).2.acc_write_pos + i) %
          ACC_SIZE) = 0 ∧
      (generate_frames filtL filtR f n OlaState.init).2.out_acc_l
        (((generate_frames filtL filtR f n OlaState.init).2.acc_write_pos + i) %
          ACC_SIZE) = 0 ∧
      (generate_frames filtL filtR f n OlaState.init).2.out_acc_r
        (((generate_frames filtL filtR f n OlaState.init).2.acc_write_pos + i) %
          ACC_SIZE) = 0 := by
  obtain ⟨⟨jj, hinv⟩, _⟩ := generate_frames_master filtL filtR f n OlaState.init 0 0
    (ola_inv_init filtL filtR f)
  rw [show (0 : ℕ) + n = n from by omega] at hinv
  intro i hi1 hi2
  obtain ⟨g1, g2, g3, g4, g5, g6, g7, g8, g9, g10, g11⟩ := hinv
  have hjj : jj * HOP_SIZE = n := by omega
  have hwrite : (generate_frames filtL filtR f n OlaState.init).2.acc_write_pos =
      n % ACC_SIZE := by rw [g5, hjj]
  have hidx : ((generate_frames filtL filtR f n OlaState.init).2.acc_write_pos + i) %
      ACC_SIZE = (n + i) % ACC_SIZE := by
    rw [hwrite, ACC_SIZE_eq]
    omega
  have hm := g11 (n + i) (by omega)
    (by rw [ACC_SIZE_eq, BLOCK_SIZE_eq] at *; omega)
  obtain ⟨q1, q2, q3⟩ := hm
  rw [hidx, q1, q2, q3]
  have hnowin : ∀ k, k ∈ Finset.range jj → ¬in_win k (n + i) := by
    intro k hk
    have hk2 := Finset.mem_range.mp hk
    unfold in_win
    rw [HOP_SIZE_eq, BLOCK_SIZE_eq] at *
    omega
  refine ⟨?_, ?_, ?_⟩
  · unfold wsum
    exact Finset.sum_eq_zero fun k hk => if_neg (hnowin k hk)
  · unfold asum
    exact Finset.sum_eq_zero fun k hk => if_neg (hnowin k hk)
  · unfold asum
    exact Finset.sum_eq_zero fun k hk => if_neg (hnowin k hk)

theorem ola_ring_drained_witness :
    (generate_frames id_filter id_filter (fun _ => 0) 0 OlaState.init).2.win_acc
      (((generate_frames id_filter id_filter (fun _ => 0) 0 OlaState.init).2.acc_write_pos +
        HOP_SIZE) % ACC_SIZE) = 0 :=
  (ola_ring_drained id_filter id_filter (fun _ => 0) 0 rfl HOP_SIZE le_rfl
    (by rw [HOP_SIZE_eq, BLOCK_SIZE_eq]; omega)).1
